import Mathlib

/-!
# Verification of `rust-scion-std-net` textual address parsing and formatting

Shallow embedding of the repository's parser (`src/parser.rs`), the ISD/AS
identifier codec and AS formatter (`src/scion_parse_utils.rs`,
`src/scion_addr.rs`) and the canonical display implementations
(`src/ip_v4_addr.rs`, `src/ip_v6_addr.rs`, `src/sock_addr_v4.rs`,
`src/sock_addr_v6.rs`, `src/sock_addr_scion.rs`, `src/ip_addr.rs`).

Machine integers are modelled as `Nat` with explicit bounds/modular reduction
where the Rust code can overflow; strings are `List Char` of ASCII characters;
fallible operations return `Option`.
-/

namespace ScionNet

/-! ## Digit primitives

`char::to_digit(radix)` in Rust maps '0'-'9' to 0-9, 'a'-'z' to 10-35,
'A'-'Z' to 10-35 and then requires the value to be `< radix`. -/

def charToDigit? (radix : Nat) (c : Char) : Option Nat :=
  let v : Option Nat :=
    if '0' ≤ c ∧ c ≤ '9' then some (c.toNat - 48)
    else if 'a' ≤ c ∧ c ≤ 'z' then some (c.toNat - 87)
    else if 'A' ≤ c ∧ c ≤ 'Z' then some (c.toNat - 55)
    else none
  match v with
  | some d => if d < radix then some d else none
  | none => none

/-- The digit characters produced by Rust's lower-hex / decimal formatting
(`left: 0-9 as '0'..'9', 10-15 as 'a'..'f'`). -/
def digitCh (d : Nat) : Char :=
  if d < 10 then Char.ofNat (48 + d) else Char.ofNat (87 + d)

/-- Little-endian digits of `n` in base `b`, with an explicit structural fuel
so that the definition reduces in the kernel.  `toDigitsRev b fuel n` is the
full digit list whenever `n < b ^ fuel`. -/
def toDigitsRev (b : Nat) : Nat → Nat → List Nat
  | 0, _ => []
  | fuel + 1, n => if n = 0 then [] else (n % b) :: toDigitsRev b fuel (n / b)

/-- Most-significant-first digit characters of `n` in base `b`; `"0"` for 0.
This models Rust's `format!` for `Display`/`LowerHex` on unsigned integers. -/
def natToChars (b n : Nat) : List Char :=
  if n = 0 then ['0'] else ((toDigitsRev b 64 n).reverse).map digitCh

/-- Decimal rendering (`format!("{}", n)`). -/
def decChars (n : Nat) : List Char := natToChars 10 n

/-- Lower-case hex rendering (`format!("{:x}", n)`). -/
def hexChars (n : Nat) : List Char := natToChars 16 n

/-- Value of a most-significant-first digit-character list, the way the
parser's accumulator folds it up: `r := r * radix + digit`. -/
def valChars (radix : Nat) (ds : List Char) : Nat :=
  ds.foldl (fun r c => r * radix + ((charToDigit? radix c).getD 0)) 0

/-! ## Identifier codec (`src/scion_parse_utils.rs`)

```rust
pub fn make_ia(isd: u16, as_: u64) -> u64 { ((isd as u64) << 48) | as_ }
pub fn as_from_ia(ia: u64) -> u64 { (ia << 16) >> 16 }
pub fn isd_from_ia(ia: u64) -> u16 { (ia >> 48).try_into().unwrap() }
```

`ia << 16` on `u64` wraps, hence the explicit `% 2 ^ 64`.  For `ia < 2 ^ 64`
the value `ia >> 48` is below `2 ^ 16`, so the `try_into().unwrap()` in
`isd_from_ia` cannot panic and the function is total. -/

def make_ia (isd as_ : Nat) : Nat := (isd <<< 48) ||| as_

def as_from_ia (ia : Nat) : Nat := ((ia <<< 16) % (2 ^ 64)) >>> 16

def isd_from_ia (ia : Nat) : Nat := ia >>> 48

/-! ## AS-number string codec (`src/scion_parse_utils.rs`)

`as_from_dotted_hex` splits on runs of ':' (the regex `[:]+`, with empty
tokens filtered out), zero-pads each token to width 4 (`format!("{:0>4}", x)`),
concatenates, and parses base 16 into a `u64` with `unwrap()`.  The `unwrap`
panic (non-hex characters, or overflow past `2 ^ 64`) is modelled as `none`. -/

/-- Splits a character list on runs of ':' and drops empty tokens. -/
def tokenizeColon (s : List Char) : List (List Char) :=
  (s.splitOn ':').filter (fun t => ¬t.isEmpty)

/-- `format!("{:0>4}", x)`: left-pad with '0' to width 4. -/
def pad_to_4 (x : List Char) : List Char :=
  List.replicate (4 - x.length) '0' ++ x

/-- `u64::from_str_radix(s, 16)` followed by `unwrap()`: `none` models panic. -/
def hexParse? (s : List Char) : Option Nat :=
  if s ≠ [] ∧ s.all (fun c => (charToDigit? 16 c).isSome) ∧ valChars 16 s < 2 ^ 64 then
    some (valChars 16 s)
  else none

def as_from_dotted_hex (s : List Char) : Option Nat :=
  hexParse? (((tokenizeColon s).map pad_to_4).flatten)

/-! `as_to_dotted_hex` walks the natural (not zero-padded) hex string of the
AS number with three pieces of state: the position `pos`, a `begin` flag that
is true while scanning the leading zeros of a 4-character group, and a counter
`encountered_zeros_in_row`. -/

/-- One loop iteration of `as_to_dotted_hex` after the `pos % 4` boundary
handling: returns the characters pushed and the updated `(begin, zeros)`. -/
def atdhStep (c : Char) (begin_ : Bool) (zeros : Nat) : List Char × Bool × Nat :=
  if begin_ then
    if c = '0' then
      if zeros + 1 = 4 then (['0', ':'], true, 0)
      else ([], true, zeros + 1)
    else ([c], false, 0)
  else ([c], begin_, zeros)

/-- The `for (pos, s) in hex_str.chars().enumerate()` loop of
`as_to_dotted_hex`: at `pos != 0 && pos % 4 == 0 && !begin` a ':' is pushed
and `(begin, zeros)` reset, then the body runs. -/
def atdhLoop : List Char → Nat → Bool → Nat → List Char
  | [], _, _, _ => []
  | c :: rest, pos, begin_, zeros =>
    let st := if pos ≠ 0 ∧ pos % 4 = 0 ∧ begin_ = false then (([':'] : List Char), true, 0)
              else ([], begin_, zeros)
    let out := atdhStep c st.2.1 st.2.2
    st.1 ++ out.1 ++ atdhLoop rest (pos + 1) out.2.1 out.2.2

def as_to_dotted_hex (as_num : Nat) : List Char :=
  atdhLoop (hexChars as_num) 0 true 0

/-! ## Value types

These mirror the Rust structs; all integer fields are `Nat` carrying the
bounds the Rust types enforce by construction of the parser. -/

structure Ipv4Addr where
  a : Nat
  b : Nat
  c : Nat
  d : Nat
  deriving DecidableEq, Repr

/-- IPv6 address as its eight 16-bit segments (most significant first), the
form `Ipv6Addr::segments()` returns and both the parser and `Display` use. -/
structure Ipv6Addr where
  segments : List Nat
  deriving DecidableEq, Repr

inductive IpAddr where
  | V4 (ip : Ipv4Addr)
  | V6 (ip : Ipv6Addr)
  deriving DecidableEq, Repr

structure ScionAddr where
  ia : Nat
  host : IpAddr
  deriving DecidableEq, Repr

structure SocketAddrV4 where
  ip : Ipv4Addr
  port : Nat
  deriving DecidableEq, Repr

structure SocketAddrV6 where
  ip : Ipv6Addr
  port : Nat
  flowinfo : Nat
  scope_id : Nat
  deriving DecidableEq, Repr

structure SocketAddrScion where
  addr : ScionAddr
  port : Nat
  deriving DecidableEq, Repr

inductive SocketAddr where
  | V4 (v : SocketAddrV4)
  | V6 (v : SocketAddrV6)
  | SCION (v : SocketAddrScion)
  deriving DecidableEq, Repr

/-! ## The scanner (`src/parser.rs`)

`Parser` holds a byte-slice cursor (`state: &[u8]`).  A reader is modelled as
a state function returning the optional result together with the cursor left
behind, so that partial consumption on failure is observable exactly as in
the Rust code. -/

def P (α : Type) : Type := List Char → Option α × List Char

/-- `read_atomically`: run a reader, and restore the pre-parse state if it
fails. -/
def read_atomically {α : Type} (inner : P α) : P α := fun s =>
  match inner s with
  | (none, _) => (none, s)
  | (some v, s') => (some v, s')

/-- Sequencing of readers; failure propagates the cursor as-is (Rust's `?`
inside a closure). -/
def pseq {α β : Type} (f : P α) (g : α → P β) : P β := fun s =>
  match f s with
  | (none, s') => (none, s')
  | (some a, s') => g a s'

def ppure {α : Type} (a : α) : P α := fun s => (some a, s)

/-- `read_char`: take the next character off the input. -/
def read_char : P Char := fun s =>
  match s with
  | [] => (none, [])
  | c :: t => (some c, t)

/-- `read_given_char(target)`: read the next character iff it equals the
target (atomically). -/
def read_given_char (target : Char) : P Unit :=
  read_atomically (pseq read_char (fun c => if c = target then ppure () else fun s => (none, s)))

/-- `read_separator(sep, index, inner)`: read `sep` iff `index > 0`, then run
`inner`, all atomically. -/
def read_separator {α : Type} (sep : Char) (index : Nat) (inner : P α) : P α :=
  read_atomically (fun s =>
    if index > 0 then (pseq (read_given_char sep) (fun _ => inner)) s else inner s)

/-- The digit loop of `read_number`: repeatedly read one digit atomically,
accumulating `result = result * radix + digit` with checked arithmetic
(`bound` is the max value of the Rust integer type; exceeding it models
`checked_mul`/`checked_add` returning `None`) and counting digits against
`max_digits`.  Stops at the first non-digit; returns the accumulator and the
digit count. -/
def rnLoop (radix bound : Nat) (maxDigits : Option Nat) :
    Nat → Nat → List Char → Option (Nat × Nat) × List Char
  | result, digitCount, [] => (some (result, digitCount), [])
  | result, digitCount, c :: t =>
    match charToDigit? radix c with
    | none => (some (result, digitCount), c :: t)
    | some d =>
      if result * radix + d > bound then (none, t)
      else if digitCount + 1 > maxDigits.getD (digitCount + 1) then (none, t)
      else rnLoop radix bound maxDigits (result * radix + d) (digitCount + 1) t

/-- `read_number(radix, max_digits, allow_zero_prefix)` for a Rust integer
type with maximum value `bound`. -/
def read_number (radix : Nat) (maxDigits : Option Nat) (allowZeroPre : Bool) (bound : Nat) :
    P Nat :=
  read_atomically (fun s =>
    let hasLeadingZero : Bool := s.head? == some '0'
    match rnLoop radix bound maxDigits 0 0 s with
    | (none, s') => (none, s')
    | (some (result, digitCount), s') =>
      if digitCount = 0 then (none, s')
      else if allowZeroPre = false ∧ hasLeadingZero = true ∧ digitCount > 1 then (none, s')
      else (some result, s'))

/-- `read_ipv4_addr`: four decimal groups of 1-3 digits (no leading zero),
separated by '.', each read into a `u8`. -/
def read_ipv4_addr : P Ipv4Addr :=
  read_atomically (
    pseq (read_separator '.' 0 (read_number 10 (some 3) false 255)) (fun a =>
    pseq (read_separator '.' 1 (read_number 10 (some 3) false 255)) (fun b =>
    pseq (read_separator '.' 2 (read_number 10 (some 3) false 255)) (fun c =>
    pseq (read_separator '.' 3 (read_number 10 (some 3) false 255)) (fun d =>
    ppure ⟨a, b, c, d⟩)))))

/-- The `read_groups` helper of `read_ipv6_addr`.  `rem` is the number of
slots left in the target slice (`limit - i`), `first` is true for the first
iteration (`i = 0`, no leading ':'), `acc` the group values read so far.
At each slot with at least two slots remaining it first tries an embedded
trailing IPv4 address (consuming two 16-bit slots and stopping), then a hex
group of up to 4 digits into a `u16`.  Never fails: returns the groups read
and whether the embedded-IPv4 path was taken. -/
def read_groups_aux (first : Bool) (acc : List Nat) :
    Nat → List Char → (List Nat × Bool) × List Char
  | 0, s => ((acc, false), s)
  | rem + 1, s =>
    let idx := if first then 0 else 1
    if rem ≥ 1 then
      match read_separator ':' idx read_ipv4_addr s with
      | (some v4, s') => ((acc ++ [v4.a * 256 + v4.b, v4.c * 256 + v4.d], true), s')
      | (none, s₁) =>
        match read_separator ':' idx (read_number 16 (some 4) true 65535) s₁ with
        | (some g, s₂) => read_groups_aux false (acc ++ [g]) rem s₂
        | (none, s₂) => ((acc, false), s₂)
    else
      match read_separator ':' idx (read_number 16 (some 4) true 65535) s with
      | (some g, s₂) => read_groups_aux false (acc ++ [g]) rem s₂
      | (none, s₂) => ((acc, false), s₂)

/-- `read_ipv6_addr`: a head chunk of up to 8 groups; if fewer than 8 and no
embedded IPv4 was taken, a literal `::` followed by a tail chunk of up to
`8 - head - 1` groups, spliced with the implied zero groups in between. -/
def read_ipv6_addr : P Ipv6Addr :=
  read_atomically (fun s =>
    match read_groups_aux true [] 8 s with
    | ((head, headIpv4), s1) =>
      if head.length = 8 then (some ⟨head⟩, s1)
      else if headIpv4 then (none, s1)
      else
        match read_given_char ':' s1 with
        | (none, s2) => (none, s2)
        | (some _, s2) =>
          match read_given_char ':' s2 with
          | (none, s3) => (none, s3)
          | (some _, s3) =>
            match read_groups_aux true [] (8 - (head.length + 1)) s3 with
            | ((tail, _), s4) =>
              (some ⟨head ++ List.replicate (8 - head.length - tail.length) 0 ++ tail⟩, s4))

/-- The group strings materialized by `read_AS`
(`format!("{:04x}:{:04x}:{:04x}", g0, g1, g2)`) fed to `as_from_dotted_hex`. -/
def asFromGroups (short_as : Bool) (g0 g1 g2 : Nat) : Option Nat :=
  let s :=
    if short_as = false then
      pad_to_4 (hexChars g0) ++ (':' :: (pad_to_4 (hexChars g1) ++ (':' :: pad_to_4 (hexChars g2))))
    else
      pad_to_4 (hexChars 0) ++ (':' :: (pad_to_4 (hexChars 0) ++ (':' :: pad_to_4 (hexChars g0))))
  as_from_dotted_hex s

/-- The hex group reader used by `read_AS`
(`p.read_number::<u32>(16, Some(4), true)`). -/
def hexGroupNum : P Nat := read_number 16 (some 4) true 4294967295

/-- `read_AS`: a loop of three attempts at `read_separator(':', i, hex-group)`
(`u32` groups of up to 4 hex digits).  `n` counts the groups read; a failed
attempt with `n == 1` sets `short_as` and breaks, any other failure just
continues.  After the loop `n == 2` is rejected; otherwise the three group
values (or `0,0,g0` in the short case) are formatted and re-parsed through
`as_from_dotted_hex`.  The loop is unrolled below; each `match` arm is
annotated with the `(n, short_as)` state it represents. -/
def read_AS : P Nat :=
  read_atomically (fun s =>
    match read_separator ':' 0 hexGroupNum s with
    | (some t0, s0) =>
      match read_separator ':' 1 hexGroupNum s0 with
      | (some t1, s1) =>
        match read_separator ':' 2 hexGroupNum s1 with
        | (some t2, s2) => (asFromGroups false t0 t1 t2, s2)
        | (none, s2) => (none, s2)
      | (none, s1) => (asFromGroups true t0 0 0, s1)
    | (none, s0) =>
      match read_separator ':' 1 hexGroupNum s0 with
      | (some t1, s1) =>
        match read_separator ':' 2 hexGroupNum s1 with
        | (some _, s2) => (none, s2)
        | (none, s2) => (asFromGroups true 0 t1 0, s2)
      | (none, s1) =>
        match read_separator ':' 2 hexGroupNum s1 with
        | (some t2, s2) => (asFromGroups false 0 0 t2, s2)
        | (none, s2) => (asFromGroups false 0 0 0, s2))

/-- `read_scion_addr`: `ISD "-" AS "," HOST` where ISD is up to 6 decimal
digits into a `u16` (leading zeros allowed), the host is IPv4-first with an
optional, unchecked '[' before and ']' after (their results are discarded in
the Rust source). -/
def or_else {α : Type} (f g : P α) : P α := fun s =>
  match f s with
  | (some v, s') => (some v, s')
  | (none, s') => g s'

def read_scion_addr : P ScionAddr :=
  read_atomically (
    pseq (read_number 10 (some 6) true 65535) (fun isd =>
    pseq (read_given_char '-') (fun _ =>
    pseq read_AS (fun as_ =>
    pseq (read_given_char ',') (fun _ => fun s4 =>
      let s5 := (read_given_char '[' s4).2
      match or_else (fun s => match read_ipv4_addr s with
                              | (o, s') => (o.map IpAddr.V4, s'))
                    (fun s => match read_ipv6_addr s with
                              | (o, s') => (o.map IpAddr.V6, s')) s5 with
      | (hostOpt, s6) =>
        let s7 := (read_given_char ']' s6).2
        match hostOpt with
        | some host => (some ⟨make_ia isd as_, host⟩, s7)
        | none => (none, s7))))))

/-- `read_ip_addr`: IPv4 first, otherwise IPv6. -/
def read_ip_addr : P IpAddr :=
  or_else (fun s => match read_ipv4_addr s with | (o, s') => (o.map IpAddr.V4, s'))
          (fun s => match read_ipv6_addr s with | (o, s') => (o.map IpAddr.V6, s'))

/-- `read_port`: ':' then an unbounded decimal number into a `u16`. -/
def read_port : P Nat :=
  read_atomically (pseq (read_given_char ':') (fun _ => read_number 10 none true 65535))

/-- `read_scope_id`: '%' then an unbounded decimal number into a `u32`. -/
def read_scope_id : P Nat :=
  read_atomically (pseq (read_given_char '%') (fun _ => read_number 10 none true 4294967295))

def read_socket_addr_v4 : P SocketAddrV4 :=
  read_atomically (
    pseq read_ipv4_addr (fun ip =>
    pseq read_port (fun port =>
    ppure ⟨ip, port⟩)))

/-- `read_socket_addr_v6`: `'[' ipv6 scope? ']' port`; a missing scope
defaults to 0 (`unwrap_or(0)`), flowinfo is always 0. -/
def read_socket_addr_v6 : P SocketAddrV6 :=
  read_atomically (
    pseq (read_given_char '[') (fun _ =>
    pseq read_ipv6_addr (fun ip => fun s2 =>
      match read_scope_id s2 with
      | (scopeOpt, s3) =>
        (pseq (read_given_char ']') (fun _ =>
         pseq read_port (fun port =>
         ppure ⟨ip, port, 0, scopeOpt.getD 0⟩))) s3)))

def read_socket_addr_scion : P SocketAddrScion :=
  read_atomically (
    pseq read_scion_addr (fun scion_addr =>
    pseq read_port (fun port =>
    ppure ⟨scion_addr, port⟩)))

/-- `read_socket_addr`: IPv4-with-port, then IPv6-with-port, then
SCION-with-port. -/
def read_socket_addr : P SocketAddr :=
  or_else (fun s => match read_socket_addr_v4 s with | (o, s') => (o.map SocketAddr.V4, s'))
    (or_else (fun s => match read_socket_addr_v6 s with | (o, s') => (o.map SocketAddr.V6, s'))
             (fun s => match read_socket_addr_scion s with
                       | (o, s') => (o.map SocketAddr.SCION, s')))

/-- `Parser::parse_with`: run a reader and succeed only if the whole input
was consumed.  The error kind carries no data relevant to the claims, so the
result is an `Option`. -/
def parse_with {α : Type} (inner : P α) (s : List Char) : Option α :=
  match inner s with
  | (some v, []) => some v
  | _ => none

/-- `Ipv4Addr::parse_ascii` (with its 15-byte length guard). -/
def ipv4Parse (s : List Char) : Option Ipv4Addr :=
  if s.length > 15 then none else parse_with read_ipv4_addr s

def ipv6Parse (s : List Char) : Option Ipv6Addr := parse_with read_ipv6_addr s

def ipParse (s : List Char) : Option IpAddr := parse_with read_ip_addr s

def scionAddrParse (s : List Char) : Option ScionAddr := parse_with read_scion_addr s

def socketV4Parse (s : List Char) : Option SocketAddrV4 := parse_with read_socket_addr_v4 s

def socketV6Parse (s : List Char) : Option SocketAddrV6 := parse_with read_socket_addr_v6 s

def socketScionParse (s : List Char) : Option SocketAddrScion :=
  parse_with read_socket_addr_scion s

def socketParse (s : List Char) : Option SocketAddr := parse_with read_socket_addr s

/-! ## Canonical display (`Display` impls) -/

/-- `Display for Ipv4Addr`: `a.b.c.d` in decimal. -/
def ipv4Display (v : Ipv4Addr) : List Char :=
  decChars v.a ++ ('.' :: (decChars v.b ++ ('.' :: (decChars v.c ++ ('.' :: decChars v.d)))))

/-- `fmt_subslice`: first group in lower hex, then `:`-prefixed groups. -/
def fmtSubslice (chunk : List Nat) : List Char :=
  match chunk with
  | [] => []
  | f :: t => hexChars f ++ (t.map (fun g => ':' :: hexChars g)).flatten

/-- The state of the zero-run scan in `Display for Ipv6Addr`. -/
structure Span where
  start : Nat
  len : Nat
  deriving DecidableEq, Repr

/-- The `for (i, &segment) in segments.iter().enumerate()` scan locating the
zero span to compress: `longest` is replaced only by a strictly longer
`current`. -/
def zeroSpanAux : List Nat → Nat → Span → Span → Span
  | [], _, _, longest => longest
  | seg :: rest, i, current, longest =>
    if seg = 0 then
      let current' : Span :=
        if current.len = 0 then ⟨i, 1⟩ else ⟨current.start, current.len + 1⟩
      let longest' := if current'.len > longest.len then current' else longest
      zeroSpanAux rest (i + 1) current' longest'
    else
      zeroSpanAux rest (i + 1) ⟨0, 0⟩ longest

def findZeroSpan (segs : List Nat) : Span := zeroSpanAux segs 0 ⟨0, 0⟩ ⟨0, 0⟩

/-- `Ipv6Addr::to_ipv4_mapped` succeeds iff the first ten octets are zero and
octets 10, 11 are `0xff` — i.e. segments 0-4 are zero and segment 5 is
`0xffff`. -/
def isIpv4Mapped (segs : List Nat) : Bool :=
  match segs with
  | [s0, s1, s2, s3, s4, s5, _, _] => s0 = 0 ∧ s1 = 0 ∧ s2 = 0 ∧ s3 = 0 ∧ s4 = 0 ∧ s5 = 65535
  | _ => false

/-- `Display for Ipv6Addr` (no width/precision): the IPv4-mapped special
case, else zero-run compression when the longest run exceeds one segment. -/
def ipv6Display (v : Ipv6Addr) : List Char :=
  let segs := v.segments
  if isIpv4Mapped segs then
    ':' :: ':' :: 'f' :: 'f' :: 'f' :: 'f' :: ':' ::
      ipv4Display ⟨segs.getD 6 0 / 256, segs.getD 6 0 % 256,
                   segs.getD 7 0 / 256, segs.getD 7 0 % 256⟩
  else
    let zeroes := findZeroSpan segs
    if zeroes.len > 1 then
      fmtSubslice (segs.take zeroes.start) ++
        (':' :: ':' :: fmtSubslice (segs.drop (zeroes.start + zeroes.len)))
    else
      fmtSubslice segs

/-- `Display for IpAddr`: dispatch on the variant. -/
def ipDisplay : IpAddr → List Char
  | .V4 v => ipv4Display v
  | .V6 v => ipv6Display v

/-- `format_AS` (`src/scion_addr.rs`): decimal in the legacy BGP range
`0 ..= u32::MAX`, dotted hex above it. -/
def format_AS (asn : Nat) : List Char :=
  if asn ≤ 4294967295 then decChars asn else as_to_dotted_hex asn

/-- `Display for ScionAddr`: `isd-as,host` using the accessors
`get_isd`/`get_as` on the packed `ia`. -/
def scionAddrDisplay (v : ScionAddr) : List Char :=
  decChars (isd_from_ia v.ia) ++
    ('-' :: (format_AS (as_from_ia v.ia) ++ (',' :: ipDisplay v.host)))

/-- `Display for SocketAddrScion`: `addr:port`. -/
def socketScionDisplay (v : SocketAddrScion) : List Char :=
  scionAddrDisplay v.addr ++ (':' :: decChars v.port)

/-- `Display for SocketAddrV4`: `ip:port`. -/
def socketV4Display (v : SocketAddrV4) : List Char :=
  ipv4Display v.ip ++ (':' :: decChars v.port)

/-- `Display for SocketAddrV6`: `[ip]:port`, with `%scope_id` inside the
brackets when the scope id is nonzero. -/
def socketV6Display (v : SocketAddrV6) : List Char :=
  if v.scope_id = 0 then
    '[' :: (ipv6Display v.ip ++ (']' :: (':' :: decChars v.port)))
  else
    '[' :: (ipv6Display v.ip ++
      ('%' :: (decChars v.scope_id ++ (']' :: (':' :: decChars v.port)))))

/-- `Display for SocketAddr`: dispatch on the variant. -/
def socketDisplay : SocketAddr → List Char
  | .V4 v => socketV4Display v
  | .V6 v => socketV6Display v
  | .SCION v => socketScionDisplay v

/-! ## Specification-side definitions

The definitions below do not model source code: they state, in executable
form, what the specification's sentences claim, so that the code-derived
definitions above can be compared against them. -/

/-- Value of a most-significant-first digit list under base `b`
(`r := r * b + d` accumulation). -/
def valDigits (b : Nat) (ds : List Nat) : Nat :=
  ds.foldl (fun r d => r * b + d) 0

/-- `c` is a digit of the given radix (accepted by `char::to_digit`). -/
def isDigitCh (radix : Nat) (c : Char) : Bool :=
  (charToDigit? radix c).isSome

/-- The shape the IPv4 grammar imposes on one octet group: 1-3 decimal
digits, no leading zero when more than one digit. -/
def ipv4Group (ds : List Char) : Prop :=
  ds ≠ [] ∧ ds.length ≤ 3 ∧ (∀ c ∈ ds, isDigitCh 10 c = true) ∧
    (ds.length > 1 → ds.head? ≠ some '0')

instance (ds : List Char) : Decidable (ipv4Group ds) := by
  unfold ipv4Group; infer_instance

/-- Length of the run of zero segments starting at index `i` (spec side,
for the IPv6 zero-compression rule). -/
def runLenAt (segs : List Nat) (i : Nat) : Nat :=
  ((segs.drop i).takeWhile (fun x => x = 0)).length

/-- Spec side: the length of the longest run of consecutive zero segments. -/
def specMaxZeroRun (segs : List Nat) : Nat :=
  ((List.range segs.length).map (runLenAt segs)).foldr max 0

/-- Spec side: the earliest start index achieving the longest zero run
(first-found longest run). -/
def specFirstMaxStart (segs : List Nat) : Nat :=
  (((List.range segs.length).find? (fun i => runLenAt segs i = specMaxZeroRun segs))).getD 0

/-- Chunks of four characters, taken from the first character on
(an explicit fuel keeps the recursion structural). -/
def chunk4 : Nat → List Char → List (List Char)
  | 0, _ => []
  | fuel + 1, cs => if cs = [] then [] else cs.take 4 :: chunk4 fuel (cs.drop 4)

/-- Join chunks with ':' separators. -/
def joinColonSep (xs : List (List Char)) : List Char :=
  match xs with
  | [] => []
  | h :: t => h ++ (t.map (fun x => ':' :: x)).flatten

/-- Modelled from the spec (claim C6's wording): a hex group with leading
zeros suppressed; an all-zero group renders as `"0"`. -/
def specStripChunk (ch : List Char) : List Char :=
  if ch.all (fun c => c = '0') then ['0'] else ch.dropWhile (fun c => c = '0')

/-- Modelled from the spec (claim C6's wording): chunk the natural hex string
into runs of 4 from its first character, suppress leading zeros per group,
join with ':'. -/
def specHexGroupsAS (n : Nat) : List Char :=
  joinColonSep ((chunk4 (hexChars n).length (hexChars n)).map specStripChunk)

/-- Modelled from the spec (claim C6's wording): the claimed dual-mode AS
rendering. -/
def specFormatAS (n : Nat) : List Char :=
  if n ≤ 4294967295 then decChars n else specHexGroupsAS n

/-- What one 4-character chunk actually contributes in `as_to_dotted_hex`:
leading zeros are stripped; a full all-zero chunk contributes `"0:"`
(colon included), a shorter all-zero final chunk contributes nothing. -/
def bodyChunk (ch : List Char) : List Char :=
  if ch.all (fun c => c = '0') then (if ch.length = 4 then ['0', ':'] else [])
  else ch.dropWhile (fun c => c = '0')

/-- Chunk-level reformulation of the `as_to_dotted_hex` loop: a ':' separator
is emitted before a chunk only when the previous chunk contained a nonzero
character. -/
def renderRestB : List (List Char) → Bool → List Char
  | [], _ => []
  | ch :: rest, prevZero =>
    (if prevZero then [] else [':']) ++ bodyChunk ch ++
      renderRestB rest (ch.all (fun c => c = '0'))

/-- Chunk-level description of `as_to_dotted_hex` on a character list. -/
def renderChunks (cs : List Char) : List Char :=
  renderRestB (chunk4 cs.length cs) true

/-- The zero-run scan of `Display for Ipv6Addr` depends only on which
segments are zero; this is the same fold over the Boolean zero-pattern. -/
def zeroSpanPat : List Bool → Nat → Span → Span → Span
  | [], _, _, longest => longest
  | b :: rest, i, current, longest =>
    if b then
      let current' : Span :=
        if current.len = 0 then ⟨i, 1⟩ else ⟨current.start, current.len + 1⟩
      let longest' := if current'.len > longest.len then current' else longest
      zeroSpanPat rest (i + 1) current' longest'
    else
      zeroSpanPat rest (i + 1) ⟨0, 0⟩ longest

/-- `runLenAt` over the Boolean zero-pattern. -/
def runLenPat (bs : List Bool) (i : Nat) : Nat :=
  ((bs.drop i).takeWhile id).length

/-- `specMaxZeroRun` over the Boolean zero-pattern. -/
def maxRunPat (bs : List Bool) : Nat :=
  ((List.range bs.length).map (runLenPat bs)).foldr max 0

/-- `specFirstMaxStart` over the Boolean zero-pattern. -/
def firstMaxPat (bs : List Bool) : Nat :=
  (((List.range bs.length).find? (fun i => runLenPat bs i = maxRunPat bs))).getD 0

/-- Spec side: segments joined with ':' after lowercase-hex rendering. -/
def specV6Groups (l : List Nat) : List Char :=
  joinColonSep (l.map hexChars)

/-- Modelled from the spec (claim C4's wording): the claimed canonical SCION
socket shape with the host bracketed when it is an IPv6 address. -/
def specScionSockBracketed (v : SocketAddrScion) : List Char :=
  decChars (isd_from_ia v.addr.ia) ++ ('-' :: (format_AS (as_from_ia v.addr.ia) ++ (',' ::
    ((match v.addr.host with
      | .V4 ip => ipv4Display ip
      | .V6 ip => '[' :: (ipv6Display ip ++ [']'])) ++ (':' :: decChars v.port)))))

/-- The ':'-prefixed hex rendering of a run of IPv6 groups: what each group
after the first contributes in `fmt_subslice` (and what every group of the
post-`::` chunk contributes after the `::`). -/
def glue6 (gs : List Nat) : List Char :=
  (gs.map (fun g => ':' :: hexChars g)).flatten

/-! ## Supporting lemmas -/

lemma make_ia_eq_add (isd as_ : Nat) (h : as_ < 2 ^ 48) :
    make_ia isd as_ = isd * 2 ^ 48 + as_ := by
  rw [make_ia, Nat.shiftLeft_eq, Nat.mul_comm isd (2 ^ 48),
    ← Nat.mul_add_lt_is_or h, Nat.mul_comm (2 ^ 48) isd]

lemma ia_unpack_as (isd as_ : Nat) (has : as_ < 2 ^ 48) :
    as_from_ia (make_ia isd as_) = as_ := by
  rw [make_ia_eq_add isd as_ has, as_from_ia, Nat.shiftLeft_eq, Nat.shiftRight_eq_div_pow]
  have h1 : (isd * 2 ^ 48 + as_) * 2 ^ 16 = isd * 2 ^ 64 + as_ * 2 ^ 16 := by ring
  rw [h1]
  omega

lemma ia_unpack_isd (isd as_ : Nat) (has : as_ < 2 ^ 48) :
    isd_from_ia (make_ia isd as_) = isd := by
  rw [make_ia_eq_add isd as_ has, isd_from_ia, Nat.shiftRight_eq_div_pow]
  omega

/-- Failure of an atomic read leaves the cursor untouched (general helper,
used throughout the backtracking arguments). -/
lemma ra_fail {α : Type} (inner : P α) (s : List Char)
    (h : (read_atomically inner s).1 = none) : read_atomically inner s = (none, s) := by
  unfold read_atomically at h ⊢
  rcases hi : inner s with ⟨o, s'⟩
  cases o <;> simp [hi] at h ⊢

/-- An atomic read either fails with the cursor restored or behaves exactly
like its inner reader on success. -/
lemma ra_cases {α : Type} (inner : P α) (s : List Char) :
    read_atomically inner s = (none, s) ∨
      (∃ v s', inner s = (some v, s') ∧ read_atomically inner s = (some v, s')) := by
  unfold read_atomically
  rcases hi : inner s with ⟨o, s'⟩
  cases o with
  | none => exact Or.inl rfl
  | some v => exact Or.inr ⟨v, s', rfl, rfl⟩

/-! ### Digit characters -/

lemma charToDigit?_digitCh_16 (d : Nat) (hd : d < 16) :
    charToDigit? 16 (digitCh d) = some d := by
  interval_cases d <;> decide

lemma charToDigit?_digitCh_10 (d : Nat) (hd : d < 10) :
    charToDigit? 10 (digitCh d) = some d := by
  interval_cases d <;> decide

lemma charToDigit?_10_letter (d : Nat) (h10 : 10 ≤ d) (hd : d < 16) :
    charToDigit? 10 (digitCh d) = none := by
  interval_cases d <;> decide

lemma digitCh_ne_zeroCh (d : Nat) (h0 : d ≠ 0) (hd : d < 16) : digitCh d ≠ '0' := by
  interval_cases d <;> simp_all <;> decide

/-! ### `toDigitsRev` and digit values -/

lemma valDigits_append_last (b : Nat) (xs : List Nat) (d : Nat) :
    valDigits b (xs ++ [d]) = valDigits b xs * b + d := by
  simp [valDigits, List.foldl_append]

lemma toDigitsRev_val (b : Nat) (hb : 0 < b) :
    ∀ fuel n, n < b ^ fuel → valDigits b (toDigitsRev b fuel n).reverse = n := by
  intro fuel
  induction fuel with
  | zero =>
    intro n hn
    have h0 : n = 0 := by simpa [Nat.lt_one_iff] using hn
    simp [toDigitsRev, h0, valDigits]
  | succ fuel ih =>
    intro n hn
    by_cases h0 : n = 0
    · simp [toDigitsRev, h0, valDigits]
    · have hdiv : n / b < b ^ fuel := by
        rw [Nat.div_lt_iff_lt_mul hb]
        calc n < b ^ (fuel + 1) := hn
        _ = b ^ fuel * b := by ring
      simp only [toDigitsRev, h0, if_false, List.reverse_cons]
      rw [valDigits_append_last, ih (n / b) hdiv]
      calc n / b * b + n % b = b * (n / b) + n % b := by ring
      _ = n := Nat.div_add_mod n b

lemma toDigitsRev_lt (b : Nat) (hb : 0 < b) :
    ∀ fuel n, ∀ d ∈ toDigitsRev b fuel n, d < b := by
  intro fuel
  induction fuel with
  | zero => intro n d hd; simp [toDigitsRev] at hd
  | succ fuel ih =>
    intro n d hd
    by_cases h0 : n = 0
    · simp [toDigitsRev, h0] at hd
    · simp only [toDigitsRev, h0, if_false, List.mem_cons] at hd
      rcases hd with h | h
      · subst h; exact Nat.mod_lt _ hb
      · exact ih (n / b) d h

lemma toDigitsRev_length (b : Nat) (hb : 1 < b) :
    ∀ fuel n k, n < b ^ k → (toDigitsRev b fuel n).length ≤ k := by
  intro fuel
  induction fuel with
  | zero => intro n k _; simp [toDigitsRev]
  | succ fuel ih =>
    intro n k hn
    by_cases h0 : n = 0
    · simp [toDigitsRev, h0]
    · have hk : k ≠ 0 := by
        rintro rfl
        simp at hn
        omega
      obtain ⟨k', rfl⟩ : ∃ k', k = k' + 1 := ⟨k - 1, by omega⟩
      have hdiv : n / b < b ^ k' := by
        rw [Nat.div_lt_iff_lt_mul (by omega)]
        calc n < b ^ (k' + 1) := hn
        _ = b ^ k' * b := by ring
      simp only [toDigitsRev, h0, if_false, List.length_cons]
      have := ih (n / b) k' hdiv
      omega

lemma toDigitsRev_last_ne_zero (b : Nat) (hb : 1 < b) :
    ∀ fuel n, 0 < n → n < b ^ fuel →
      ∃ ds d, toDigitsRev b fuel n = ds ++ [d] ∧ d ≠ 0 := by
  intro fuel
  induction fuel with
  | zero => intro n hn h1; simp at h1; omega
  | succ fuel ih =>
    intro n hn h1
    have h0 : n ≠ 0 := by omega
    by_cases hq : n / b = 0
    · refine ⟨[], n % b, ?_, ?_⟩
      · simp only [toDigitsRev, h0, if_false]
        have : toDigitsRev b fuel (n / b) = [] := by
          rcases fuel with _ | f <;> simp [toDigitsRev, hq]
        simp [this]
      · have hmod := Nat.mod_add_div n b
        have hz : b * (n / b) = 0 := by rw [hq, Nat.mul_zero]
        omega
    · have hdiv : n / b < b ^ fuel := by
        rw [Nat.div_lt_iff_lt_mul (by omega)]
        calc n < b ^ (fuel + 1) := h1
        _ = b ^ fuel * b := by ring
      obtain ⟨ds, d, hds, hd⟩ := ih (n / b) (Nat.pos_of_ne_zero hq) hdiv
      exact ⟨n % b :: ds, d, by simp [toDigitsRev, h0, hds], hd⟩

/-! ### `natToChars` -/

lemma valChars_map_digitCh (radix : Nat) (hr : radix = 10 ∨ radix = 16) :
    ∀ ds : List Nat, (∀ d ∈ ds, d < radix) → valChars radix (ds.map digitCh) = valDigits radix ds := by
  have key : ∀ d < radix, charToDigit? radix (digitCh d) = some d := by
    rcases hr with rfl | rfl
    · exact charToDigit?_digitCh_10
    · exact charToDigit?_digitCh_16
  intro ds
  induction ds with
  | nil => intro _; simp [valChars, valDigits]
  | cons d t iht =>
    intro hmem
    have hd : d < radix := hmem d (by simp)
    have hfold : ∀ (l : List Nat) (r : Nat), (∀ x ∈ l, x < radix) →
        List.foldl (fun r c => r * radix + (charToDigit? radix c).getD 0) r (l.map digitCh) =
        List.foldl (fun r x => r * radix + x) r l := by
      intro l
      induction l with
      | nil => intro r _; simp
      | cons x xs ihx =>
        intro r hm
        simp only [List.map_cons, List.foldl_cons, key x (hm x (by simp))]
        exact ihx _ (fun y hy => hm y (by simp [hy]))
    simp only [valChars, valDigits]
    exact hfold (d :: t) 0 hmem

lemma natToChars_digits (b : Nat) (hb : 1 < b) (n : Nat) (hn : n < b ^ 64) :
    ∀ c ∈ natToChars b n, ∃ d, d < b ∧ c = digitCh d := by
  intro c hc
  by_cases h0 : n = 0
  · subst h0
    simp [natToChars] at hc
    exact ⟨0, by omega, by simp [hc, digitCh]⟩
  · simp only [natToChars, h0, if_false, List.mem_map, List.mem_reverse] at hc
    obtain ⟨d, hd, rfl⟩ := hc
    exact ⟨d, toDigitsRev_lt b (by omega) 64 n d hd, rfl⟩

lemma natToChars_ne_nil (b n : Nat) : natToChars b n ≠ [] := by
  by_cases h0 : n = 0
  · simp [natToChars, h0]
  · have h64 : (64 : Nat) = 63 + 1 := rfl
    simp only [natToChars, h0, if_false, h64]
    simp [toDigitsRev, h0]

lemma natToChars_val (radix : Nat) (hr : radix = 10 ∨ radix = 16) (n : Nat)
    (hn : n < radix ^ 64) : valChars radix (natToChars radix n) = n := by
  have hb : 1 < radix := by rcases hr with rfl | rfl <;> norm_num
  by_cases h0 : n = 0
  · subst h0
    rcases hr with rfl | rfl <;> decide
  · simp only [natToChars, h0, if_false]
    rw [valChars_map_digitCh radix hr _ (by
      intro d hd
      rw [List.mem_reverse] at hd
      exact toDigitsRev_lt radix (by omega) 64 n d hd)]
    exact toDigitsRev_val radix (by omega) 64 n hn

lemma natToChars_length (b : Nat) (hb : 1 < b) (n k : Nat) (hk : 1 ≤ k) (hn : n < b ^ k) :
    (natToChars b n).length ≤ k := by
  by_cases h0 : n = 0
  · simp [natToChars, h0]; omega
  · simp only [natToChars, h0, if_false, List.length_map, List.length_reverse]
    exact toDigitsRev_length b hb 64 n k hn

lemma natToChars_head_ne_zero (b : Nat) (hb : 1 < b) (hb16 : b ≤ 16) (n : Nat)
    (h0 : n ≠ 0) (hn : n < b ^ 64) : (natToChars b n).head? ≠ some '0' := by
  obtain ⟨ds, d, hds, hd⟩ := toDigitsRev_last_ne_zero b hb 64 n (Nat.pos_of_ne_zero h0) hn
  have hdlt : d < b := by
    have : d ∈ toDigitsRev b 64 n := by rw [hds]; simp
    exact toDigitsRev_lt b (by omega) 64 n d this
  simp only [natToChars, h0, if_false, hds, List.reverse_append, List.reverse_cons,
    List.reverse_nil, List.nil_append, List.cons_append, List.map_cons, List.head?_cons]
  intro hcontra
  have : digitCh d ≠ '0' := digitCh_ne_zeroCh d hd (by omega)
  simp at hcontra
  exact this hcontra

/-! ### Scanner combinators -/

lemma read_given_char_hit (t : Char) (rest : List Char) :
    read_given_char t (t :: rest) = (some (), rest) := by
  simp [read_given_char, read_atomically, pseq, read_char, ppure]

lemma read_given_char_miss (t : Char) (s : List Char)
    (h : ∀ c, s.head? = some c → c ≠ t) :
    read_given_char t s = (none, s) := by
  cases s with
  | nil => simp [read_given_char, read_atomically, pseq, read_char]
  | cons c rest =>
    have hc : c ≠ t := h c rfl
    simp [read_given_char, read_atomically, pseq, read_char, hc]

lemma read_separator_zero {α : Type} (sep : Char) (inner : P α) (s : List Char) :
    read_separator sep 0 inner s = read_atomically inner s := by
  simp [read_separator, read_atomically]

lemma read_separator_pos_hit {α : Type} (sep : Char) (idx : Nat) (hidx : 0 < idx)
    (inner : P α) (s : List Char) :
    read_separator sep idx inner (sep :: s) = read_atomically (fun _ => inner s) (sep :: s) := by
  simp only [read_separator, read_atomically, hidx, if_pos, pseq, read_given_char_hit]

lemma read_separator_pos_miss {α : Type} (sep : Char) (idx : Nat) (hidx : 0 < idx)
    (inner : P α) (s : List Char) (h : ∀ c, s.head? = some c → c ≠ sep) :
    read_separator sep idx inner s = (none, s) := by
  simp only [read_separator, read_atomically, hidx, if_pos, pseq,
    read_given_char_miss sep s h]

/-! ### `rnLoop` and `read_number` -/

/-- The digit-fold value never decreases as digits are consumed
(for a radix of at least 1). -/
lemma foldl_val_ge (radix : Nat) (hr : 1 ≤ radix) :
    ∀ (ds : List Char) (r : Nat),
      r ≤ List.foldl (fun r c => r * radix + (charToDigit? radix c).getD 0) r ds := by
  intro ds
  induction ds with
  | nil => intro r; simp
  | cons c t ih =>
    intro r
    refine le_trans ?_ (ih (r * radix + (charToDigit? radix c).getD 0))
    have : r * 1 ≤ r * radix := Nat.mul_le_mul_left r hr
    omega

/-- Computation rule for the digit loop on an input that starts with the
digit characters `ds` and continues with a non-digit (or nothing). -/
lemma rnLoop_digits (radix bound : Nat) (maxD : Option Nat) (hr : 1 ≤ radix) :
    ∀ (ds rest : List Char) (r k : Nat),
      (∀ c ∈ ds, (charToDigit? radix c).isSome) →
      (∀ c, rest.head? = some c → charToDigit? radix c = none) →
      List.foldl (fun r c => r * radix + (charToDigit? radix c).getD 0) r ds ≤ bound →
      (∀ m, maxD = some m → k + ds.length ≤ m) →
      rnLoop radix bound maxD r k (ds ++ rest) =
        (some (List.foldl (fun r c => r * radix + (charToDigit? radix c).getD 0) r ds,
          k + ds.length), rest) := by
  intro ds
  induction ds with
  | nil =>
    intro rest r k _ hrest _ _
    cases rest with
    | nil => simp [rnLoop]
    | cons c t =>
      have := hrest c rfl
      simp [rnLoop, this]
  | cons c ds ih =>
    intro rest r k hds hrest hbound hmax
    obtain ⟨d, hd⟩ := Option.isSome_iff_exists.mp (hds c (by simp))
    have hgetd : (charToDigit? radix c).getD 0 = d := by simp [hd]
    have hfold : List.foldl (fun r c => r * radix + (charToDigit? radix c).getD 0)
        (r * radix + d) ds ≤ bound := by
      simpa [List.foldl_cons, hgetd] using hbound
    have hub := foldl_val_ge radix hr ds (r * radix + d)
    have hstep : ¬(r * radix + d > bound) := by omega
    have hmd : ¬(k + 1 > maxD.getD (k + 1)) := by
      cases maxD with
      | none => simp
      | some m =>
        have := hmax m rfl
        simp only [Option.getD_some]
        simp at this ⊢
        omega
    have hds' : ∀ x ∈ ds, (charToDigit? radix x).isSome := fun x hx => hds x (by simp [hx])
    have hrec := ih rest (r * radix + d) (k + 1) hds' hrest hfold
      (by intro m hm; have := hmax m hm; simp at this; omega)
    have hfc : List.foldl (fun r c => r * radix + (charToDigit? radix c).getD 0) r (c :: ds)
        = List.foldl (fun r c => r * radix + (charToDigit? radix c).getD 0) (r * radix + d) ds := by
      simp [List.foldl_cons, hgetd]
    have hlen : k + (c :: ds).length = k + 1 + ds.length := by simp; omega
    simp only [List.cons_append, rnLoop, hd, if_neg hstep, if_neg hmd, hfc, hlen,
      List.append_eq]
    exact hrec

/-- Inversion for the digit loop: a successful run consumed exactly a digit
prefix, stopped at a non-digit, and respected the bound and digit limit. -/
lemma rnLoop_inv (radix bound : Nat) (maxD : Option Nat) :
    ∀ (s : List Char) (r k res dc : Nat) (s' : List Char),
      rnLoop radix bound maxD r k s = (some (res, dc), s') →
      ∃ ds, s = ds ++ s' ∧ (∀ c ∈ ds, (charToDigit? radix c).isSome) ∧
        (∀ c, s'.head? = some c → charToDigit? radix c = none) ∧
        res = List.foldl (fun r c => r * radix + (charToDigit? radix c).getD 0) r ds ∧
        dc = k + ds.length ∧
        (ds ≠ [] → res ≤ bound ∧ (∀ m, maxD = some m → dc ≤ m)) := by
  intro s
  induction s with
  | nil =>
    intro r k res dc s' h
    simp only [rnLoop, Prod.mk.injEq, Option.some.injEq] at h
    obtain ⟨⟨h1, h2⟩, h3⟩ := h
    subst h1; subst h2; subst h3
    exact ⟨[], by simp, by simp, by simp, by simp, by simp, by simp⟩
  | cons c t ih =>
    intro r k res dc s' h
    simp only [rnLoop] at h
    split at h
    next hcd =>
      simp only [Prod.mk.injEq, Option.some.injEq] at h
      obtain ⟨⟨h1, h2⟩, h3⟩ := h
      subst h1; subst h2; subst h3
      refine ⟨[], by simp, by simp, ?_, by simp, by simp, by simp⟩
      intro x hx
      simp at hx
      subst hx
      exact hcd
    next d hcd =>
      by_cases hb : r * radix + d > bound
      · rw [if_pos hb] at h
        simp at h
      · rw [if_neg hb] at h
        by_cases hm : k + 1 > maxD.getD (k + 1)
        · rw [if_pos hm] at h
          simp at h
        · rw [if_neg hm] at h
          obtain ⟨ds, hsplit, hdig, hstop, hres, hdc, hbd⟩ :=
            ih (r * radix + d) (k + 1) res dc s' h
          have hgetd : (charToDigit? radix c).getD 0 = d := by simp [hcd]
          refine ⟨c :: ds, by simp [hsplit], ?_, hstop, ?_, by simp [hdc]; omega, ?_⟩
          · intro x hx
            rcases List.mem_cons.mp hx with rfl | hx'
            · simp [hcd]
            · exact hdig x hx'
          · simp [hres, List.foldl_cons, hgetd]
          · intro _
            by_cases hds : ds = []
            · subst hds
              refine ⟨?_, ?_⟩
              · simp only [hres, List.foldl_nil]
                omega
              · intro m hmm
                subst hmm
                simp only [Option.getD_some] at hm
                simp [hdc]
                omega
            · obtain ⟨h1, h2⟩ := hbd hds
              exact ⟨h1, h2⟩

/-- `read_number` computation rule: on an input that is a digit string `ds`
followed by a non-digit continuation, the number read is the accumulated
value of `ds` and the continuation is left untouched, provided the value,
digit count and zero-prefix rules allow it. -/
lemma read_number_on (radix : Nat) (maxD : Option Nat) (azp : Bool) (bound : Nat)
    (ds rest : List Char) (hr : 1 ≤ radix) (hne : ds ≠ [])
    (hds : ∀ c ∈ ds, (charToDigit? radix c).isSome)
    (hrest : ∀ c, rest.head? = some c → charToDigit? radix c = none)
    (hval : valChars radix ds ≤ bound)
    (hmax : ∀ m, maxD = some m → ds.length ≤ m)
    (hzp : azp = true ∨ ds.length = 1 ∨ ds.head? ≠ some '0') :
    read_number radix maxD azp bound (ds ++ rest) = (some (valChars radix ds), rest) := by
  have hloop := rnLoop_digits radix bound maxD hr ds rest 0 0 hds hrest hval
    (by intro m hm; simpa using hmax m hm)
  have hlen0 : ds.length ≠ 0 := by
    intro hl
    exact hne (List.eq_nil_of_length_eq_zero hl)
  have hzpf : ¬(azp = false ∧ (((ds ++ rest).head? == some '0') = true) ∧ 0 + ds.length > 1) := by
    rcases hzp with h | h | h
    · simp [h]
    · simp [h]
    · rintro ⟨h1, h2, h3⟩
      cases ds with
      | nil => exact hne rfl
      | cons c t =>
        simp only [List.cons_append, List.head?_cons, beq_iff_eq, Option.some.injEq] at h2
        exact h (by simp [h2])
  simp only [read_number, read_atomically, hloop]
  rw [if_neg (show ¬(0 + ds.length = 0) by omega), if_neg hzpf]
  rfl

/-- `read_number` failure on input not starting with a digit: nothing is
consumed and the read fails. -/
lemma read_number_nodigit (radix : Nat) (maxD : Option Nat) (azp : Bool) (bound : Nat)
    (s : List Char) (h : ∀ c, s.head? = some c → charToDigit? radix c = none) :
    read_number radix maxD azp bound s = (none, s) := by
  have hloop : rnLoop radix bound maxD 0 0 s = (some (0, 0), s) := by
    cases s with
    | nil => simp [rnLoop]
    | cons c t =>
      have := h c rfl
      simp [rnLoop, this]
  simp [read_number, read_atomically, hloop]

/-- `read_number` inversion: a successful read consumed exactly a nonempty
digit prefix whose accumulated value it returned, stopped at a non-digit,
and the value, digit count and zero-prefix side conditions hold. -/
lemma read_number_inv (radix : Nat) (maxD : Option Nat) (azp : Bool) (bound : Nat)
    (s : List Char) (v : Nat) (s' : List Char)
    (h : read_number radix maxD azp bound s = (some v, s')) :
    ∃ ds, s = ds ++ s' ∧ ds ≠ [] ∧ (∀ c ∈ ds, (charToDigit? radix c).isSome) ∧
      (∀ c, s'.head? = some c → charToDigit? radix c = none) ∧
      v = valChars radix ds ∧ v ≤ bound ∧
      (∀ m, maxD = some m → ds.length ≤ m) ∧
      (azp = false → ds.length > 1 → ds.head? ≠ some '0') := by
  simp only [read_number, read_atomically] at h
  split at h
  · simp at h
  · rename_i v₂ s₂ heq
    simp only [Prod.mk.injEq, Option.some.injEq] at h
    obtain ⟨hv2, hs2⟩ := h
    split at heq
    · simp at heq
    · rename_i result dc s₃ heq2
      by_cases hdc : dc = 0
      · rw [if_pos hdc] at heq
        simp at heq
      · rw [if_neg hdc] at heq
        by_cases hzp : azp = false ∧ ((s.head? == some '0') = true) ∧ dc > 1
        · rw [if_pos hzp] at heq
          simp at heq
        · rw [if_neg hzp] at heq
          simp only [Prod.mk.injEq, Option.some.injEq] at heq
          obtain ⟨hres, hs3⟩ := heq
          have heq3 : rnLoop radix bound maxD 0 0 s = (some (v, dc), s') := by
            rw [heq2, hres, hs3, hv2, hs2]
          obtain ⟨ds, hsplit, hdig, hstop, hresval, hdcl, hbd⟩ :=
            rnLoop_inv radix bound maxD s 0 0 v dc s' heq3
          have hdsne : ds ≠ [] := by
            intro hnil
            rw [hnil] at hdcl
            simp at hdcl
            exact hdc hdcl
          obtain ⟨hble, hmaxm⟩ := hbd hdsne
          refine ⟨ds, hsplit, hdsne, hdig, hstop, hresval, hble, ?_, ?_⟩
          · intro m hm
            have := hmaxm m hm
            omega
          · intro hazp hlen hhead
            apply hzp
            refine ⟨hazp, ?_, by omega⟩
            have hh : s.head? = some '0' := by
              rw [hsplit]
              cases ds with
              | nil => exact absurd rfl hdsne
              | cons c t =>
                simp only [List.head?_cons] at hhead
                simp [hhead]
            simp [hh]

/-! ### Composition helpers -/

lemma pseq_some {α β : Type} (f : P α) (g : α → P β) (s s₁ : List Char) (a : α)
    (h : f s = (some a, s₁)) : pseq f g s = g a s₁ := by
  simp [pseq, h]

lemma pseq_none {α β : Type} (f : P α) (g : α → P β) (s s₁ : List Char)
    (h : f s = (none, s₁)) : pseq f g s = (none, s₁) := by
  simp [pseq, h]

lemma pseq_inv {α β : Type} (f : P α) (g : α → P β) (s s' : List Char) (v : β)
    (h : pseq f g s = (some v, s')) :
    ∃ a s₁, f s = (some a, s₁) ∧ g a s₁ = (some v, s') := by
  simp only [pseq] at h
  rcases hf : f s with ⟨o, s₁⟩
  rw [hf] at h
  cases o with
  | none => simp at h
  | some a => exact ⟨a, s₁, rfl, h⟩

lemma ra_some {α : Type} (inner : P α) (s s' : List Char) (v : α)
    (h : inner s = (some v, s')) : read_atomically inner s = (some v, s') := by
  simp [read_atomically, h]

lemma ra_none {α : Type} (inner : P α) (s s₁ : List Char)
    (h : inner s = (none, s₁)) : read_atomically inner s = (none, s) := by
  simp [read_atomically, h]

lemma ra_inv {α : Type} (inner : P α) (s s' : List Char) (v : α)
    (h : read_atomically inner s = (some v, s')) : inner s = (some v, s') := by
  simp only [read_atomically] at h
  rcases hf : inner s with ⟨o, s₁⟩
  rw [hf] at h
  cases o with
  | none => simp at h
  | some a => simpa using h

lemma read_given_char_inv (t : Char) (s s' : List Char)
    (h : read_given_char t s = (some (), s')) : s = t :: s' := by
  cases s with
  | nil => simp [read_given_char, read_atomically, pseq, read_char] at h
  | cons c rest =>
    by_cases hc : c = t
    · subst hc
      rw [read_given_char_hit] at h
      simp at h
      simp [h]
    · rw [read_given_char_miss t (c :: rest) (by intro x hx; simp at hx; cases hx; exact hc)] at h
      simp at h

lemma read_separator_inv_zero {α : Type} (sep : Char) (inner : P α) (s s' : List Char) (v : α)
    (h : read_separator sep 0 inner s = (some v, s')) : inner s = (some v, s') := by
  rw [read_separator_zero] at h
  exact ra_inv inner s s' v h

lemma read_separator_inv_pos {α : Type} (sep : Char) (idx : Nat) (hidx : 0 < idx)
    (inner : P α) (s s' : List Char) (v : α)
    (h : read_separator sep idx inner s = (some v, s')) :
    ∃ s₁, s = sep :: s₁ ∧ inner s₁ = (some v, s') := by
  simp only [read_separator, hidx, if_pos] at h
  have h2 := ra_inv _ s s' v h
  obtain ⟨a, s₁, hgc, hinner⟩ := pseq_inv _ _ s s' v h2
  obtain rfl : s = sep :: s₁ := read_given_char_inv sep s s₁ hgc
  exact ⟨s₁, rfl, hinner⟩

lemma parse_with_some {α : Type} (inner : P α) (s : List Char) (v : α)
    (h : parse_with inner s = some v) : inner s = (some v, []) := by
  simp only [parse_with] at h
  rcases hf : inner s with ⟨o, s₁⟩
  rw [hf] at h
  cases o with
  | none => simp at h
  | some a =>
    cases s₁ with
    | nil => simpa using h
    | cons c t => simp at h

lemma parse_with_of {α : Type} (inner : P α) (s : List Char) (v : α)
    (h : inner s = (some v, [])) : parse_with inner s = some v := by
  simp [parse_with, h]

lemma parse_with_none {α : Type} (inner : P α) (s s₁ : List Char)
    (h : inner s = (none, s₁)) : parse_with inner s = none := by
  simp [parse_with, h]

/-! ### Digit strings -/

/-- A most-significant-first digit fold is bounded by `radix ^ length`. -/
lemma valChars_lt_pow (radix : Nat) :
    ∀ (ds : List Char) (r : Nat),
      List.foldl (fun r c => r * radix + (charToDigit? radix c).getD 0) r ds <
        (r + 1) * radix ^ ds.length ∨ ¬(∀ c ∈ ds, (charToDigit? radix c).isSome) := by
  intro ds
  induction ds with
  | nil => intro r; left; simp
  | cons c t ih =>
    intro r
    by_cases hall : ∀ x ∈ c :: t, (charToDigit? radix x).isSome
    · left
      obtain ⟨d, hd⟩ := Option.isSome_iff_exists.mp (hall c (by simp))
      have hdlt : d < radix := by
        by_contra hge
        simp only [charToDigit?] at hd
        split at hd <;> simp_all <;> omega
      rcases ih (r * radix + d) with h | h
      · simp only [List.foldl_cons, hd, Option.getD_some, List.length_cons]
        calc List.foldl (fun r c => r * radix + (charToDigit? radix c).getD 0) (r * radix + d) t
            < (r * radix + d + 1) * radix ^ t.length := h
          _ ≤ ((r + 1) * radix) * radix ^ t.length := by
              have : r * radix + d + 1 ≤ (r + 1) * radix := by nlinarith
              exact Nat.mul_le_mul_right _ this
          _ = (r + 1) * radix ^ (t.length + 1) := by ring
      · exact absurd (fun x hx => hall x (by simp [hx])) h
    · right; exact hall

lemma valChars_bound (radix : Nat) (_hr : 1 ≤ radix) (ds : List Char)
    (hds : ∀ c ∈ ds, (charToDigit? radix c).isSome) :
    valChars radix ds < radix ^ ds.length := by
  rcases valChars_lt_pow radix ds 0 with h | h
  · simpa [valChars] using h
  · exact absurd hds h

/-- Two digit-prefix decompositions of the same string agree when both stop
at a non-digit. -/
lemma digit_prefix_unique (radix : Nat) :
    ∀ (ds ds' rest rest' : List Char), ds ++ rest = ds' ++ rest' →
      (∀ c ∈ ds, (charToDigit? radix c).isSome) →
      (∀ c ∈ ds', (charToDigit? radix c).isSome) →
      (∀ c, rest.head? = some c → charToDigit? radix c = none) →
      (∀ c, rest'.head? = some c → charToDigit? radix c = none) →
      ds = ds' ∧ rest = rest' := by
  intro ds
  induction ds with
  | nil =>
    intro ds' rest rest' heq _ hd' hstop _
    cases ds' with
    | nil => simpa using heq
    | cons c t =>
      simp only [List.nil_append, List.cons_append] at heq
      have h1 : rest.head? = some c := by rw [heq]; rfl
      have h2 := hstop c h1
      have h3 := hd' c (by simp)
      rw [h2] at h3
      simp at h3
  | cons c t ih =>
    intro ds' rest rest' heq hd hd' hstop hstop'
    cases ds' with
    | nil =>
      simp only [List.cons_append, List.nil_append] at heq
      have h1 : rest'.head? = some c := by rw [← heq]; rfl
      have h2 := hstop' c h1
      have h3 := hd c (by simp)
      rw [h2] at h3
      simp at h3
    | cons c' t' =>
      simp only [List.cons_append, List.cons.injEq] at heq
      obtain ⟨rfl, heq2⟩ := heq
      obtain ⟨h1, h2⟩ := ih t' rest rest' heq2 (fun x hx => hd x (by simp [hx]))
        (fun x hx => hd' x (by simp [hx])) hstop hstop'
      exact ⟨by rw [h1], h2⟩

/-- `read_number` fails (without consuming) when the value of the leading
digit run exceeds the bound. -/
lemma read_number_overflow (radix : Nat) (maxD : Option Nat) (azp : Bool) (bound : Nat)
    (ds rest : List Char) (_hne : ds ≠ [])
    (hds : ∀ c ∈ ds, (charToDigit? radix c).isSome)
    (hrest : ∀ c, rest.head? = some c → charToDigit? radix c = none)
    (hval : valChars radix ds > bound) :
    read_number radix maxD azp bound (ds ++ rest) = (none, ds ++ rest) := by
  rcases hres : read_number radix maxD azp bound (ds ++ rest) with ⟨o, s₁⟩
  cases o with
  | none =>
    have h0 : (read_number radix maxD azp bound (ds ++ rest)).1 = none := by rw [hres]
    have h1 : read_number radix maxD azp bound (ds ++ rest) = (none, ds ++ rest) :=
      ra_fail _ _ h0
    rw [hres] at h1
    exact h1
  | some v =>
    obtain ⟨ds', hsplit, hne', hdig', hstop', hv, hvb, _, _⟩ :=
      read_number_inv radix maxD azp bound (ds ++ rest) v s₁ hres
    obtain ⟨h1, h2⟩ := digit_prefix_unique radix ds ds' rest s₁ hsplit hds hdig' hrest hstop'
    subst h1
    omega

/-! ### Rendering wrappers -/

lemma decChars_digits (n : Nat) (hn : n < 10 ^ 64) :
    ∀ c ∈ decChars n, (charToDigit? 10 c).isSome := by
  intro c hc
  obtain ⟨d, hd, rfl⟩ := natToChars_digits 10 (by norm_num) n hn c hc
  simp [charToDigit?_digitCh_10 d hd]

lemma hexChars_digits (n : Nat) (hn : n < 16 ^ 64) :
    ∀ c ∈ hexChars n, (charToDigit? 16 c).isSome := by
  intro c hc
  obtain ⟨d, hd, rfl⟩ := natToChars_digits 16 (by norm_num) n hn c hc
  simp [charToDigit?_digitCh_16 d hd]

lemma decChars_val (n : Nat) (hn : n < 10 ^ 64) : valChars 10 (decChars n) = n :=
  natToChars_val 10 (Or.inl rfl) n hn

lemma hexChars_val (n : Nat) (hn : n < 16 ^ 64) : valChars 16 (hexChars n) = n :=
  natToChars_val 16 (Or.inr rfl) n hn

lemma decChars_zp (n : Nat) (hn : n < 10 ^ 64) :
    (decChars n).length = 1 ∨ (decChars n).head? ≠ some '0' := by
  by_cases h0 : n = 0
  · left; simp [decChars, natToChars, h0]
  · right; exact natToChars_head_ne_zero 10 (by norm_num) (by norm_num) n h0 hn

lemma hexChars_zp (n : Nat) (hn : n < 16 ^ 64) :
    (hexChars n).length = 1 ∨ (hexChars n).head? ≠ some '0' := by
  by_cases h0 : n = 0
  · left; simp [hexChars, natToChars, h0]
  · right; exact natToChars_head_ne_zero 16 (by norm_num) (by norm_num) n h0 hn

lemma u8_lt : (255 : Nat) < 10 ^ 64 := by norm_num

/-- All small numbers fit the display fuel. -/
lemma lt_ten_64 (n : Nat) (h : n < 2 ^ 64) : n < 10 ^ 64 := by
  calc n < 2 ^ 64 := h
  _ ≤ 10 ^ 64 := Nat.pow_le_pow_left (by norm_num) 64

lemma lt_sixteen_64 (n : Nat) (h : n < 2 ^ 64) : n < 16 ^ 64 := by
  calc n < 2 ^ 64 := h
  _ ≤ 16 ^ 64 := Nat.pow_le_pow_left (by norm_num) 64

/-! ### The IPv4 reader -/

/-- `read_number` computation for a canonically rendered decimal octet. -/
lemma read_octet_on (n : Nat) (hn : n ≤ 255) (rest : List Char)
    (hrest : ∀ c, rest.head? = some c → charToDigit? 10 c = none) :
    read_number 10 (some 3) false 255 (decChars n ++ rest) = (some n, rest) := by
  have hn64 : n < 10 ^ 64 := by omega
  have h := read_number_on 10 (some 3) false 255 (decChars n) rest (by norm_num)
    (natToChars_ne_nil 10 n) (decChars_digits n hn64) hrest
    (by rw [decChars_val n hn64]; omega)
    (by
      intro m hm
      cases hm
      exact natToChars_length 10 (by norm_num) n 3 (by norm_num) (by omega))
    (by
      rcases decChars_zp n hn64 with h | h
      · right; left; exact h
      · right; right; exact h)
  rw [h, decChars_val n hn64]

/-- `read_ipv4_addr` computation on a canonically rendered address. -/
lemma read_ipv4_on (a b c d : Nat) (ha : a ≤ 255) (hb : b ≤ 255) (hc : c ≤ 255)
    (hd : d ≤ 255) (rest : List Char)
    (hrest : ∀ x, rest.head? = some x → charToDigit? 10 x = none) :
    read_ipv4_addr (ipv4Display ⟨a, b, c, d⟩ ++ rest) = (some ⟨a, b, c, d⟩, rest) := by
  have hdot : ∀ (t : List Char) (x : Char), ('.' :: t).head? = some x →
      charToDigit? 10 x = none := by
    intro t x hx
    simp at hx
    subst hx
    decide
  have h4 := read_octet_on d hd rest hrest
  have h3 := read_octet_on c hc ('.' :: (decChars d ++ rest)) (hdot _)
  have h2 := read_octet_on b hb ('.' :: (decChars c ++ ('.' :: (decChars d ++ rest)))) (hdot _)
  have h1 := read_octet_on a ha
    ('.' :: (decChars b ++ ('.' :: (decChars c ++ ('.' :: (decChars d ++ rest)))))) (hdot _)
  have hshape : ipv4Display ⟨a, b, c, d⟩ ++ rest =
      decChars a ++ ('.' :: (decChars b ++ ('.' :: (decChars c ++ ('.' :: (decChars d ++ rest)))))) := by
    simp [ipv4Display, List.append_assoc]
  have hsep1 : read_separator '.' 0 (read_number 10 (some 3) false 255)
      (decChars a ++ ('.' :: (decChars b ++ ('.' :: (decChars c ++ ('.' :: (decChars d ++ rest))))))) =
      (some a, '.' :: (decChars b ++ ('.' :: (decChars c ++ ('.' :: (decChars d ++ rest)))))) := by
    rw [read_separator_zero]
    exact ra_some _ _ _ _ h1
  have hsep2 : read_separator '.' 1 (read_number 10 (some 3) false 255)
      ('.' :: (decChars b ++ ('.' :: (decChars c ++ ('.' :: (decChars d ++ rest)))))) =
      (some b, '.' :: (decChars c ++ ('.' :: (decChars d ++ rest)))) := by
    rw [read_separator_pos_hit '.' 1 (by norm_num)]
    exact ra_some _ _ _ _ h2
  have hsep3 : read_separator '.' 2 (read_number 10 (some 3) false 255)
      ('.' :: (decChars c ++ ('.' :: (decChars d ++ rest)))) =
      (some c, '.' :: (decChars d ++ rest)) := by
    rw [read_separator_pos_hit '.' 2 (by norm_num)]
    exact ra_some _ _ _ _ h3
  have hsep4 : read_separator '.' 3 (read_number 10 (some 3) false 255)
      ('.' :: (decChars d ++ rest)) = (some d, rest) := by
    rw [read_separator_pos_hit '.' 3 (by norm_num)]
    exact ra_some _ _ _ _ h4
  show read_atomically _ _ = _
  apply ra_some
  rw [hshape, pseq_some _ _ _ _ _ hsep1, pseq_some _ _ _ _ _ hsep2,
    pseq_some _ _ _ _ _ hsep3, pseq_some _ _ _ _ _ hsep4]
  rfl

/-- Inversion for `read_ipv4_addr`: the consumed prefix is exactly four
dot-separated well-formed decimal groups whose values are the octets. -/
lemma read_ipv4_inv (s s' : List Char) (v : Ipv4Addr)
    (h : read_ipv4_addr s = (some v, s')) :
    ∃ d1 d2 d3 d4, s = d1 ++ ('.' :: (d2 ++ ('.' :: (d3 ++ ('.' :: (d4 ++ s')))))) ∧
      ipv4Group d1 ∧ ipv4Group d2 ∧ ipv4Group d3 ∧ ipv4Group d4 ∧
      v = ⟨valChars 10 d1, valChars 10 d2, valChars 10 d3, valChars 10 d4⟩ ∧
      v.a ≤ 255 ∧ v.b ≤ 255 ∧ v.c ≤ 255 ∧ v.d ≤ 255 ∧
      (∀ c, s'.head? = some c → charToDigit? 10 c = none) := by
  have h1 := ra_inv _ s s' v h
  obtain ⟨a, s1, ha, h2⟩ := pseq_inv _ _ s s' v h1
  obtain ⟨b, s2, hb, h3⟩ := pseq_inv _ _ s1 s' v h2
  obtain ⟨c, s3, hc, h4⟩ := pseq_inv _ _ s2 s' v h3
  obtain ⟨d, s4, hd, h5⟩ := pseq_inv _ _ s3 s' v h4
  have hv : v = ⟨a, b, c, d⟩ ∧ s4 = s' := by
    simp only [ppure, Prod.mk.injEq, Option.some.injEq] at h5
    exact ⟨h5.1.symm, h5.2⟩
  obtain ⟨rfl, rfl⟩ := hv
  have ha' := read_separator_inv_zero '.' _ s s1 a ha
  obtain ⟨ds1, hs1, hne1, hdig1, hstop1, hval1, hb1, hmax1, hzp1⟩ :=
    read_number_inv 10 (some 3) false 255 s a s1 ha'
  obtain ⟨s1b, rfl, hbn⟩ := read_separator_inv_pos '.' 1 (by norm_num) _ s1 s2 b hb
  obtain ⟨ds2, hs2, hne2, hdig2, hstop2, hval2, hb2, hmax2, hzp2⟩ :=
    read_number_inv 10 (some 3) false 255 s1b b s2 hbn
  obtain ⟨s2b, rfl, hcn⟩ := read_separator_inv_pos '.' 2 (by norm_num) _ s2 s3 c hc
  obtain ⟨ds3, hs3, hne3, hdig3, hstop3, hval3, hb3, hmax3, hzp3⟩ :=
    read_number_inv 10 (some 3) false 255 s2b c s3 hcn
  obtain ⟨s3b, rfl, hdn⟩ := read_separator_inv_pos '.' 3 (by norm_num) _ s3 s4 d hd
  obtain ⟨ds4, hs4, hne4, hdig4, hstop4, hval4, hb4, hmax4, hzp4⟩ :=
    read_number_inv 10 (some 3) false 255 s3b d s4 hdn
  have hgrp : ∀ (ds : List Char), ds ≠ [] →
      (∀ x ∈ ds, (charToDigit? 10 x).isSome) →
      (∀ m, (some 3 : Option Nat) = some m → ds.length ≤ m) →
      ((false : Bool) = false → ds.length > 1 → ds.head? ≠ some '0') → ipv4Group ds := by
    intro ds hne hdig hmax hzp
    exact ⟨hne, hmax 3 rfl, fun x hx => by simp [isDigitCh, hdig x hx],
      fun hlen => hzp rfl hlen⟩
  refine ⟨ds1, ds2, ds3, ds4, ?_, hgrp ds1 hne1 hdig1 hmax1 hzp1,
    hgrp ds2 hne2 hdig2 hmax2 hzp2, hgrp ds3 hne3 hdig3 hmax3 hzp3,
    hgrp ds4 hne4 hdig4 hmax4 hzp4, by rw [hval1, hval2, hval3, hval4],
    by simpa [hval1] using hb1, by simpa [hval2] using hb2,
    by simpa [hval3] using hb3, by simpa [hval4] using hb4, hstop4⟩
  rw [hs1, hs2, hs3, hs4]

lemma dropWhile_append_all (p : Char → Bool) :
    ∀ (xs ys : List Char), (∀ x ∈ xs, p x = true) →
      (xs ++ ys).dropWhile p = ys.dropWhile p := by
  intro xs
  induction xs with
  | nil => intro ys _; simp
  | cons x t ih =>
    intro ys hall
    have hx : p x = true := hall x (by simp)
    simp only [List.cons_append, List.dropWhile_cons, hx, if_pos]
    exact ih ys (fun y hy => hall y (by simp [hy]))

/-- `read_ipv4_addr` fails without consuming when the character after the
maximal decimal-digit prefix of the input is not '.'. -/
lemma read_ipv4_fail (s : List Char)
    (h : ∀ c, (s.dropWhile (fun c => (charToDigit? 10 c).isSome)).head? = some c → c ≠ '.') :
    read_ipv4_addr s = (none, s) := by
  rcases hres : read_ipv4_addr s with ⟨o, s₁⟩
  cases o with
  | none =>
    have h0 : (read_ipv4_addr s).1 = none := by rw [hres]
    have h1 : read_ipv4_addr s = (none, s) := ra_fail _ _ h0
    rw [hres] at h1
    rw [← hres] at h1 ⊢
    exact h1
  | some v =>
    exfalso
    obtain ⟨d1, d2, d3, d4, hsplit, hg1, _, _, _, _, _, _, _, _, _⟩ :=
      read_ipv4_inv s s₁ v hres
    obtain ⟨hne1, _, hdig1, _⟩ := hg1
    have hall : ∀ x ∈ d1, ((charToDigit? 10 x).isSome : Bool) = true := by
      intro x hx
      have := hdig1 x hx
      simpa [isDigitCh] using this
    have hdw : s.dropWhile (fun c => (charToDigit? 10 c).isSome) =
        '.' :: (d2 ++ ('.' :: (d3 ++ ('.' :: (d4 ++ s₁))))) := by
      rw [hsplit, dropWhile_append_all _ d1 _ hall, List.dropWhile_cons]
      have hdotf : charToDigit? 10 '.' = none := by decide
      simp [hdotf]
    exact h '.' (by rw [hdw]; rfl) rfl

/-! ### The AS reader on a two-group input -/

/-- `read_AS` rejects an AS text of exactly two colon-separated hex groups
(`n == 2` after the loop), restoring the cursor. -/
lemma read_AS_two_groups (g1 g2 rest : List Char)
    (hg1ne : g1 ≠ []) (hg1d : ∀ c ∈ g1, (charToDigit? 16 c).isSome) (hg1len : g1.length ≤ 4)
    (hg2ne : g2 ≠ []) (hg2d : ∀ c ∈ g2, (charToDigit? 16 c).isSome) (hg2len : g2.length ≤ 4) :
    read_AS (g1 ++ (':' :: (g2 ++ (',' :: rest)))) =
      (none, g1 ++ (':' :: (g2 ++ (',' :: rest)))) := by
  have hcolon : ∀ (t : List Char) (x : Char), (':' :: t).head? = some x →
      charToDigit? 16 x = none := by
    intro t x hx
    simp at hx
    subst hx
    decide
  have hcomma : ∀ (t : List Char) (x : Char), (',' :: t).head? = some x →
      charToDigit? 16 x = none := by
    intro t x hx
    simp at hx
    subst hx
    decide
  have hv1 : valChars 16 g1 ≤ 4294967295 := by
    have h1 := valChars_bound 16 (by norm_num) g1 hg1d
    have h2 : (16 : Nat) ^ g1.length ≤ 16 ^ 4 := Nat.pow_le_pow_right (by norm_num) hg1len
    norm_num at h2
    omega
  have hv2 : valChars 16 g2 ≤ 4294967295 := by
    have h1 := valChars_bound 16 (by norm_num) g2 hg2d
    have h2 : (16 : Nat) ^ g2.length ≤ 16 ^ 4 := Nat.pow_le_pow_right (by norm_num) hg2len
    norm_num at h2
    omega
  have h1 : read_number 16 (some 4) true 4294967295 (g1 ++ (':' :: (g2 ++ (',' :: rest)))) =
      (some (valChars 16 g1), ':' :: (g2 ++ (',' :: rest))) :=
    read_number_on 16 (some 4) true 4294967295 g1 _ (by norm_num) hg1ne hg1d (hcolon _)
      hv1 (by intro m hm; cases hm; exact hg1len) (Or.inl rfl)
  have h2 : read_number 16 (some 4) true 4294967295 (g2 ++ (',' :: rest)) =
      (some (valChars 16 g2), ',' :: rest) :=
    read_number_on 16 (some 4) true 4294967295 g2 _ (by norm_num) hg2ne hg2d (hcomma _)
      hv2 (by intro m hm; cases hm; exact hg2len) (Or.inl rfl)
  have hsep0 : read_separator ':' 0 hexGroupNum
      (g1 ++ (':' :: (g2 ++ (',' :: rest)))) =
      (some (valChars 16 g1), ':' :: (g2 ++ (',' :: rest))) := by
    rw [read_separator_zero]
    exact ra_some _ _ _ _ h1
  have hsep1 : read_separator ':' 1 hexGroupNum
      (':' :: (g2 ++ (',' :: rest))) = (some (valChars 16 g2), ',' :: rest) := by
    rw [read_separator_pos_hit ':' 1 (by norm_num)]
    exact ra_some _ _ _ _ h2
  have hsep2 : read_separator ':' 2 hexGroupNum
      (',' :: rest) = (none, ',' :: rest) :=
    read_separator_pos_miss ':' 2 (by norm_num) _ _
      (by intro c hc; simp at hc; subst hc; decide)
  apply ra_none _ _ (',' :: rest)
  simp only [hsep0, hsep1, hsep2]

/-- `read_scion_addr` fails atomically when the AS reader fails right after
the ISD and the '-'. -/
lemma read_scion_addr_fail_after_isd (isdDs rest : List Char) (isdv : Nat)
    (hnum : read_number 10 (some 6) true 65535 (isdDs ++ ('-' :: rest)) =
      (some isdv, '-' :: rest))
    (hAS : read_AS rest = (none, rest)) :
    read_scion_addr (isdDs ++ ('-' :: rest)) = (none, isdDs ++ ('-' :: rest)) := by
  apply ra_none _ _ rest
  rw [pseq_some _ _ _ _ _ hnum, pseq_some _ _ _ _ _ (read_given_char_hit '-' rest)]
  exact pseq_none _ _ _ _ hAS

/-! ### IPv6 zero-run display -/

lemma zeroSpanAux_pat :
    ∀ (l : List Nat) (i : Nat) (cur lng : Span),
      zeroSpanAux l i cur lng = zeroSpanPat (l.map (fun x => decide (x = 0))) i cur lng := by
  intro l
  induction l with
  | nil => intro i cur lng; simp [zeroSpanAux, zeroSpanPat]
  | cons seg rest ih =>
    intro i cur lng
    by_cases h0 : seg = 0
    · simp [zeroSpanAux, zeroSpanPat, h0, ih]
    · simp [zeroSpanAux, zeroSpanPat, h0, ih]

lemma runLenAt_pat (l : List Nat) (i : Nat) :
    runLenAt l i = runLenPat (l.map (fun x => decide (x = 0))) i := by
  simp only [runLenPat, runLenAt]
  rw [← List.map_drop, List.takeWhile_map]
  simp [Function.comp]

lemma specMaxZeroRun_pat (l : List Nat) :
    specMaxZeroRun l = maxRunPat (l.map (fun x => decide (x = 0))) := by
  simp only [specMaxZeroRun, maxRunPat, List.length_map]
  congr 1
  apply List.map_congr_left
  intro i _
  exact runLenAt_pat l i

lemma specFirstMaxStart_pat (l : List Nat) :
    specFirstMaxStart l = firstMaxPat (l.map (fun x => decide (x = 0))) := by
  have hp : (fun i => decide (runLenAt l i = specMaxZeroRun l)) =
      (fun i => decide (runLenPat (l.map (fun x => decide (x = 0))) i =
        maxRunPat (l.map (fun x => decide (x = 0))))) := by
    funext i
    rw [runLenAt_pat, specMaxZeroRun_pat]
  simp only [specFirstMaxStart, firstMaxPat, List.length_map]
  rw [hp]

/-- The zero-span fold computes exactly the first-found longest zero run,
checked over all 256 zero-patterns of an 8-segment address. -/
lemma zeroSpanPat_eight (b0 b1 b2 b3 b4 b5 b6 b7 : Bool) :
    zeroSpanPat [b0, b1, b2, b3, b4, b5, b6, b7] 0 ⟨0, 0⟩ ⟨0, 0⟩ =
      ⟨firstMaxPat [b0, b1, b2, b3, b4, b5, b6, b7],
        maxRunPat [b0, b1, b2, b3, b4, b5, b6, b7]⟩ := by
  cases b0 <;> cases b1 <;> cases b2 <;> cases b3 <;> cases b4 <;> cases b5 <;>
    cases b6 <;> cases b7 <;> rfl

/-- The zero span chosen by `Display for Ipv6Addr` is the first-found
longest zero run of the segments. -/
lemma findZeroSpan_spec (segs : List Nat) (hlen : segs.length = 8) :
    findZeroSpan segs = ⟨specFirstMaxStart segs, specMaxZeroRun segs⟩ := by
  rcases segs with _ | ⟨s0, _ | ⟨s1, _ | ⟨s2, _ | ⟨s3, _ | ⟨s4, _ | ⟨s5, _ | ⟨s6, _ |
    ⟨s7, _ | ⟨s8, rest⟩⟩⟩⟩⟩⟩⟩⟩⟩ <;> simp at hlen
  rw [findZeroSpan, zeroSpanAux_pat, specFirstMaxStart_pat, specMaxZeroRun_pat]
  simp only [List.map_cons, List.map_nil]
  exact zeroSpanPat_eight _ _ _ _ _ _ _ _

lemma fmtSubslice_eq_specV6Groups (l : List Nat) :
    fmtSubslice l = specV6Groups l := by
  cases l with
  | nil => rfl
  | cons f t =>
    simp only [fmtSubslice, specV6Groups, joinColonSep, List.map_cons, List.map_map]
    rfl

/-! ### The `as_to_dotted_hex` loop, chunk by chunk -/

/-- One loop step with `begin = true`: the boundary branch cannot fire. -/
lemma atdhLoop_step_true (c : Char) (rest : List Char) (pos z : Nat) :
    atdhLoop (c :: rest) pos true z =
      (atdhStep c true z).1 ++
        atdhLoop rest (pos + 1) (atdhStep c true z).2.1 (atdhStep c true z).2.2 := by
  simp only [atdhLoop]
  rw [if_neg (by simp)]
  simp

/-- One loop step with `begin = false` away from a chunk boundary. -/
lemma atdhLoop_step_false (c : Char) (rest : List Char) (pos z : Nat)
    (h : pos % 4 ≠ 0 ∨ pos = 0) :
    atdhLoop (c :: rest) pos false z = c :: atdhLoop rest (pos + 1) false z := by
  simp only [atdhLoop]
  rw [if_neg (by rcases h with h | h <;> simp [h])]
  simp [atdhStep]

/-- At a chunk boundary with `begin = false`, a ':' is pushed and the state
resets, after which the same character is processed as if `begin` were true. -/
lemma atdhLoop_step_boundary (c : Char) (rest : List Char) (pos z : Nat)
    (h0 : pos ≠ 0) (h4 : pos % 4 = 0) :
    atdhLoop (c :: rest) pos false z = ':' :: atdhLoop (c :: rest) pos true 0 := by
  conv_lhs => simp only [atdhLoop]
  rw [if_pos (by simp [h0, h4])]
  rw [atdhLoop_step_true]
  simp

/-- With `begin = false`, characters inside a chunk are copied verbatim. -/
lemma atdhLoop_copy (suffix : List Char) :
    ∀ (pos z : Nat) (rest : List Char),
      (∀ j, j < suffix.length → (pos + j) % 4 ≠ 0) →
      atdhLoop (suffix ++ rest) pos false z =
        suffix ++ atdhLoop rest (pos + suffix.length) false z := by
  induction suffix with
  | nil => intro pos z rest _; simp
  | cons c t ih =>
    intro pos z rest hpos
    have h0 : pos % 4 ≠ 0 := by
      have := hpos 0 (by simp)
      simpa using this
    rw [List.cons_append, atdhLoop_step_false c _ pos z (Or.inl h0),
      ih (pos + 1) z rest (by
        intro j hj
        have h2 := hpos (j + 1) (by simp; omega)
        have harr : pos + 1 + j = pos + (j + 1) := by omega
        rw [harr]
        exact h2)]
    have harr2 : pos + 1 + t.length = pos + (c :: t).length := by simp; omega
    rw [harr2]
    simp

/-- Processing one chunk (at most 4 characters) from `begin = true` with
`zeros = z`: leading zeros are suppressed; a chunk that completes four
consecutive zeros emits "0:" and stays in the `begin` state. -/
lemma atdhLoop_chunk (ch : List Char) :
    ∀ (pos z : Nat) (rest : List Char),
      z + ch.length ≤ 4 → z < 4 →
      (∀ j, 1 ≤ j → j < ch.length → (pos + j) % 4 ≠ 0) →
      atdhLoop (ch ++ rest) pos true z =
        (if ch.all (fun c => c = '0') then
          (if z + ch.length = 4 then
            '0' :: ':' :: atdhLoop rest (pos + ch.length) true 0
          else atdhLoop rest (pos + ch.length) true (z + ch.length))
        else
          ch.dropWhile (fun c => c = '0') ++ atdhLoop rest (pos + ch.length) false 0) := by
  induction ch with
  | nil =>
    intro pos z rest hlen hz _
    have hz4 : ¬(z = 4) := by omega
    simp [hz4]
  | cons c t ih =>
    intro pos z rest hlen hz hpos
    rw [List.cons_append, atdhLoop_step_true]
    by_cases hc : c = '0'
    · subst hc
      by_cases hz4 : z + 1 = 4
      · have ht : t = [] := by
          simp at hlen
          have : t.length = 0 := by omega
          exact List.eq_nil_of_length_eq_zero this
        subst ht
        rw [show atdhStep '0' true z = (['0', ':'], true, 0) by simp [atdhStep, hz4]]
        simp [hz4]
      · have hz1 : z + 1 < 4 := by omega
        rw [show atdhStep '0' true z = ([], true, z + 1) by simp [atdhStep, hz4]]
        simp only [List.nil_append]
        rw [ih (pos + 1) (z + 1) rest (by simp at hlen ⊢; omega) hz1 (by
          intro j hj1 hjl
          have h2 := hpos (j + 1) (by omega) (by simp; omega)
          have harr : pos + 1 + j = pos + (j + 1) := by omega
          rw [harr]
          exact h2)]
        have h1 : z + ('0' :: t).length = z + 1 + t.length := by simp; omega
        have h2 : pos + ('0' :: t).length = pos + 1 + t.length := by simp; omega
        simp only [List.all_cons, decide_True, Bool.true_and, h1, h2, List.dropWhile_cons]
        simp
    · rw [show atdhStep c true z = ([c], false, 0) by simp [atdhStep, hc]]
      rw [atdhLoop_copy t (pos + 1) 0 rest (by
        intro j hj
        have h2 := hpos (j + 1) (by omega) (by simp; omega)
        have harr : pos + 1 + j = pos + (j + 1) := by omega
        rw [harr]
        exact h2)]
      have hall : ((c :: t).all fun x => decide (x = '0')) = false := by
        simp [hc]
      have h2 : pos + 1 + t.length = pos + (c :: t).length := by simp; omega
      rw [h2] at *
      simp only [hall, Bool.false_eq_true, if_false, List.dropWhile_cons]
      simp [hc]

lemma chunk4_nil : ∀ fuel, chunk4 fuel [] = [] := by
  intro fuel
  cases fuel <;> simp [chunk4]

/-- The whole `as_to_dotted_hex` loop, chunk list by chunk list. -/
lemma atdhLoop_chunks :
    ∀ (fuel : Nat) (cs : List Char) (k : Nat) (prevZ : Bool),
      cs.length ≤ 4 * fuel → (k = 0 → prevZ = true) →
      atdhLoop cs (4 * k) prevZ 0 = renderRestB (chunk4 fuel cs) prevZ := by
  intro fuel
  induction fuel with
  | zero =>
    intro cs k prevZ hlen _
    have : cs = [] := List.eq_nil_of_length_eq_zero (by omega)
    subst this
    simp [atdhLoop, chunk4, renderRestB]
  | succ fuel ih =>
    intro cs k prevZ hlen hk
    by_cases hcs : cs = []
    · subst hcs
      simp [atdhLoop, chunk4, renderRestB]
    · have hchunk : chunk4 (fuel + 1) cs = cs.take 4 :: chunk4 fuel (cs.drop 4) := by
        simp [chunk4, hcs]
      have hchlen : (cs.take 4).length ≤ 4 := by
        simp [List.length_take]
      have hposs : ∀ j, 1 ≤ j → j < (cs.take 4).length → (4 * k + j) % 4 ≠ 0 := by
        intro j h1 h2
        omega
      have hsplit : cs.take 4 ++ cs.drop 4 = cs := List.take_append_drop 4 cs
      have hcore : atdhLoop cs (4 * k) true 0 =
          bodyChunk (cs.take 4) ++
            renderRestB (chunk4 fuel (cs.drop 4)) ((cs.take 4).all (fun c => c = '0')) := by
        conv_lhs => rw [← hsplit]
        rw [atdhLoop_chunk (cs.take 4) (4 * k) 0 (cs.drop 4) (by omega) (by norm_num) hposs]
        by_cases hall : (cs.take 4).all (fun c => c = '0')
        · rw [if_pos hall]
          by_cases h4 : (cs.take 4).length = 4
          · rw [if_pos (by omega)]
            have h44 : 4 * k + (cs.take 4).length = 4 * (k + 1) := by omega
            rw [h44, ih (cs.drop 4) (k + 1) true (by simp; omega) (by simp)]
            simp [bodyChunk, hall, h4]
          · have hlt : cs.length < 4 := by
              simp [List.length_take] at h4
              omega
            have hdrop : cs.drop 4 = [] := List.drop_eq_nil_of_le (by omega)
            rw [if_neg (show ¬((0 : Nat) + (cs.take 4).length = 4) by omega)]
            rw [hdrop, chunk4_nil]
            simp only [renderRestB, List.append_nil]
            rw [show atdhLoop ([] : List Char) (4 * k + (cs.take 4).length) true
              (0 + (cs.take 4).length) = [] from rfl]
            rw [show bodyChunk (cs.take 4) = [] by simp [bodyChunk, hall]; omega]
        · rw [if_neg (by simp [hall])]
          by_cases h4 : (cs.take 4).length = 4
          · have hallf : ((cs.take 4).all fun c => decide (c = '0')) = false := by
              simpa using hall
            have h44 : 4 * k + (cs.take 4).length = 4 * (k + 1) := by omega
            rw [h44, ih (cs.drop 4) (k + 1) false (by simp; omega) (by simp), hallf]
            simp [bodyChunk, hallf]
          · have hdrop : cs.drop 4 = [] := by
              apply List.drop_eq_nil_of_le
              simp [List.length_take] at h4
              omega
            rw [hdrop, chunk4_nil]
            simp [atdhLoop, bodyChunk, hall, renderRestB]
      cases prevZ with
      | true =>
        rw [hcore, hchunk]
        simp [renderRestB]
      | false =>
        have hk1 : k ≠ 0 := by
          intro h0
          exact absurd (hk h0) (by simp)
        obtain ⟨c, t, rfl⟩ : ∃ c t, cs = c :: t := by
          cases cs with
          | nil => exact absurd rfl hcs
          | cons c t => exact ⟨c, t, rfl⟩
        rw [atdhLoop_step_boundary c t (4 * k) 0 (by omega) (by omega), hcore, hchunk]
        simp [renderRestB]

/-- `as_to_dotted_hex` renders exactly the chunk-level rule of
`renderChunks`. -/
lemma as_to_dotted_hex_eq_renderChunks (n : Nat) :
    as_to_dotted_hex n = renderChunks (hexChars n) := by
  have h := atdhLoop_chunks (hexChars n).length (hexChars n) 0 true (by omega) (fun _ => rfl)
  simpa [as_to_dotted_hex, renderChunks] using h

/-! ### The IPv6 reader on canonical group renderings -/

lemma digitCh_ne_dot (d : Nat) (hd : d < 16) : digitCh d ≠ '.' := by
  interval_cases d <;> decide

lemma hexChars_no_dot (g : Nat) (hg : g < 16 ^ 64) : '.' ∉ hexChars g := by
  intro hmem
  obtain ⟨d, hd, heq⟩ := natToChars_digits 16 (by norm_num) g hg '.' hmem
  exact digitCh_ne_dot d hd heq.symm

lemma decChars_no_dot (n : Nat) (hn : n < 10 ^ 64) : '.' ∉ decChars n := by
  intro hmem
  obtain ⟨d, hd, heq⟩ := natToChars_digits 10 (by norm_num) n hn '.' hmem
  exact digitCh_ne_dot d (by omega) heq.symm

lemma glue6_cons (g : Nat) (t : List Nat) :
    glue6 (g :: t) = ':' :: (hexChars g ++ glue6 t) := by
  simp [glue6]

lemma fmtSubslice_cons (g : Nat) (t : List Nat) :
    fmtSubslice (g :: t) = hexChars g ++ glue6 t := rfl

lemma glue6_no_dot : ∀ (gs : List Nat), (∀ g ∈ gs, g < 65536) → '.' ∉ glue6 gs := by
  intro gs
  induction gs with
  | nil => intro _; simp [glue6]
  | cons g t ih =>
    intro hb
    have hg64 : g < 16 ^ 64 := by
      have h1 := hb g (by simp)
      have h2 : (65536 : Nat) < 16 ^ 64 := by norm_num
      omega
    rw [glue6_cons]
    intro hmem
    rcases List.mem_cons.mp hmem with h | h
    · exact absurd h (by decide)
    · rcases List.mem_append.mp h with h | h
      · exact hexChars_no_dot g hg64 h
      · exact ih (fun x hx => hb x (by simp [hx])) h

lemma glue6_head_nonhex (t : List Nat) (rest : List Char)
    (hrh : ∀ c, rest.head? = some c → charToDigit? 16 c = none) :
    ∀ c, (glue6 t ++ rest).head? = some c → charToDigit? 16 c = none := by
  cases t with
  | nil => simpa [glue6] using hrh
  | cons g t' =>
    intro c hc
    rw [glue6_cons] at hc
    simp only [List.cons_append, List.head?_cons, Option.some.injEq] at hc
    subst hc
    decide

lemma mem_of_dropWhile_head (p : Char → Bool) (s : List Char) (c : Char)
    (h : (s.dropWhile p).head? = some c) : c ∈ s := by
  have hc : c ∈ s.dropWhile p := by
    cases hdw : s.dropWhile p with
    | nil => rw [hdw] at h; simp at h
    | cons a t =>
      rw [hdw] at h
      simp only [List.head?_cons, Option.some.injEq] at h
      simp [h]
  exact (List.dropWhile_sublist p).subset hc

/-- `read_ipv4_addr` fails on any dot-free input. -/
lemma no_dot_ipv4_fail (s : List Char) (h : '.' ∉ s) : read_ipv4_addr s = (none, s) := by
  apply read_ipv4_fail
  intro c hc hceq
  subst hceq
  exact h (mem_of_dropWhile_head _ s '.' hc)

/-- `read_ipv4_addr` fails without consuming on an input whose first
character is neither a decimal digit nor '.'. -/
lemma head_nondigit_ipv4_fail (c : Char) (t : List Char)
    (hc : charToDigit? 10 c = none) (hdot : c ≠ '.') :
    read_ipv4_addr (c :: t) = (none, c :: t) := by
  apply read_ipv4_fail
  have hdw : (c :: t).dropWhile (fun x => (charToDigit? 10 x).isSome) = c :: t := by
    simp [List.dropWhile_cons, hc]
  rw [hdw]
  intro x hx
  simp only [List.head?_cons, Option.some.injEq] at hx
  subst hx
  exact hdot

lemma sep_pos_inner_fail {α : Type} (sep : Char) (idx : Nat) (hidx : 0 < idx)
    (inner : P α) (t t₁ : List Char) (h : inner t = (none, t₁)) :
    read_separator sep idx inner (sep :: t) = (none, sep :: t) := by
  rw [read_separator_pos_hit sep idx hidx]
  exact ra_none _ (sep :: t) t₁ h

lemma sep_pos_inner_ok {α : Type} (sep : Char) (idx : Nat) (hidx : 0 < idx)
    (inner : P α) (t t' : List Char) (v : α) (h : inner t = (some v, t')) :
    read_separator sep idx inner (sep :: t) = (some v, t') := by
  rw [read_separator_pos_hit sep idx hidx]
  exact ra_some _ (sep :: t) t' v h

/-- `read_number` computation for a canonically rendered hex group. -/
lemma hexGroup_on (g : Nat) (hg : g < 65536) (rest : List Char)
    (hrest : ∀ c, rest.head? = some c → charToDigit? 16 c = none) :
    read_number 16 (some 4) true 65535 (hexChars g ++ rest) = (some g, rest) := by
  have hg64 : g < 16 ^ 64 := by
    have h2 : (65536 : Nat) < 16 ^ 64 := by norm_num
    omega
  have h := read_number_on 16 (some 4) true 65535 (hexChars g) rest (by norm_num)
    (natToChars_ne_nil 16 g) (hexChars_digits g hg64) hrest
    (by rw [hexChars_val g hg64]; omega)
    (by
      intro m hm
      cases hm
      exact natToChars_length 16 (by norm_num) g 4 (by norm_num)
        (by
          have h3 : (16 : Nat) ^ 4 = 65536 := by norm_num
          omega))
    (Or.inl rfl)
  rw [h, hexChars_val g hg64]

/-- One-step unfolding of the group loop at a non-first position. -/
lemma read_groups_aux_step_false (acc : List Nat) (r : Nat) (s : List Char) :
    read_groups_aux false acc (r + 1) s =
      if r ≥ 1 then
        match read_separator ':' 1 read_ipv4_addr s with
        | (some v4, s') => ((acc ++ [v4.a * 256 + v4.b, v4.c * 256 + v4.d], true), s')
        | (none, s₁) =>
          match read_separator ':' 1 (read_number 16 (some 4) true 65535) s₁ with
          | (some g, s₂) => read_groups_aux false (acc ++ [g]) r s₂
          | (none, s₂) => ((acc, false), s₂)
      else
        match read_separator ':' 1 (read_number 16 (some 4) true 65535) s with
        | (some g, s₂) => read_groups_aux false (acc ++ [g]) r s₂
        | (none, s₂) => ((acc, false), s₂) := rfl

/-- One-step unfolding of the group loop at the first position. -/
lemma read_groups_aux_step_true (acc : List Nat) (r : Nat) (s : List Char) :
    read_groups_aux true acc (r + 1) s =
      if r ≥ 1 then
        match read_separator ':' 0 read_ipv4_addr s with
        | (some v4, s') => ((acc ++ [v4.a * 256 + v4.b, v4.c * 256 + v4.d], true), s')
        | (none, s₁) =>
          match read_separator ':' 0 (read_number 16 (some 4) true 65535) s₁ with
          | (some g, s₂) => read_groups_aux false (acc ++ [g]) r s₂
          | (none, s₂) => ((acc, false), s₂)
      else
        match read_separator ':' 0 (read_number 16 (some 4) true 65535) s with
        | (some g, s₂) => read_groups_aux false (acc ++ [g]) r s₂
        | (none, s₂) => ((acc, false), s₂) := rfl

/-- The group loop at non-first positions reads exactly a ':'-glued run of
canonically rendered hex groups and stops at `rest` (which neither starts a
further group nor an embedded IPv4 address). -/
lemma read_groups_tail_on (rest : List Char)
    (hrh : ∀ c, rest.head? = some c → charToDigit? 16 c = none)
    (hnd : '.' ∉ rest)
    (hsV4 : read_separator ':' 1 read_ipv4_addr rest = (none, rest))
    (hsHex : read_separator ':' 1 (read_number 16 (some 4) true 65535) rest =
      (none, rest)) :
    ∀ (gs : List Nat) (rem : Nat) (acc : List Nat),
      (∀ g ∈ gs, g < 65536) → gs.length ≤ rem →
      read_groups_aux false acc rem (glue6 gs ++ rest) = ((acc ++ gs, false), rest) := by
  intro gs
  induction gs with
  | nil =>
    intro rem acc _ _
    simp only [glue6, List.map_nil, List.flatten_nil, List.nil_append, List.append_nil]
    cases rem with
    | zero => rfl
    | succ r =>
      rw [read_groups_aux_step_false]
      by_cases hr : r ≥ 1
      · simp only [hr, if_true, hsV4, hsHex]
      · simp only [hr, if_false, hsHex]
  | cons g gt ih =>
    intro rem acc hall hlen
    cases rem with
    | zero => simp at hlen
    | succ r =>
      have hg : g < 65536 := hall g (by simp)
      have hgt : ∀ x ∈ gt, x < 65536 := fun x hx => hall x (by simp [hx])
      have hg64 : g < 16 ^ 64 := by
        have h2 : (65536 : Nat) < 16 ^ 64 := by norm_num
        omega
      have hnodotT : '.' ∉ hexChars g ++ (glue6 gt ++ rest) := by
        intro hmem
        rcases List.mem_append.mp hmem with h | h
        · exact hexChars_no_dot g hg64 h
        · rcases List.mem_append.mp h with h | h
          · exact glue6_no_dot gt hgt h
          · exact hnd h
      have hV4 : read_separator ':' 1 read_ipv4_addr
          (':' :: (hexChars g ++ (glue6 gt ++ rest))) =
          (none, ':' :: (hexChars g ++ (glue6 gt ++ rest))) :=
        sep_pos_inner_fail ':' 1 (by norm_num) _ _ _ (no_dot_ipv4_fail _ hnodotT)
      have hHex : read_separator ':' 1 (read_number 16 (some 4) true 65535)
          (':' :: (hexChars g ++ (glue6 gt ++ rest))) =
          (some g, glue6 gt ++ rest) :=
        sep_pos_inner_ok ':' 1 (by norm_num) _ _ _ _
          (hexGroup_on g hg (glue6 gt ++ rest) (glue6_head_nonhex gt rest hrh))
      have hrec := ih r (acc ++ [g]) hgt (by simp at hlen; omega)
      have hshape : glue6 (g :: gt) ++ rest = ':' :: (hexChars g ++ (glue6 gt ++ rest)) := by
        rw [glue6_cons]
        simp [List.append_assoc]
      rw [hshape, read_groups_aux_step_false]
      by_cases hr : r ≥ 1
      · simp only [hr, if_true, hV4, hHex, hrec]
        simp
      · simp only [hr, if_false, hHex, hrec]
        simp

/-- The group loop at the first position with nothing to read: stops at once
when the input neither starts a group nor an embedded IPv4 address. -/
lemma read_groups_first_stop (rest : List Char) (rem : Nat) (acc : List Nat)
    (h0V4 : read_ipv4_addr rest = (none, rest))
    (h0Hex : read_number 16 (some 4) true 65535 rest = (none, rest)) :
    read_groups_aux true acc rem rest = ((acc, false), rest) := by
  cases rem with
  | zero => rfl
  | succ r =>
    have hA : read_separator ':' 0 read_ipv4_addr rest = (none, rest) := by
      rw [read_separator_zero]
      exact ra_none _ _ _ h0V4
    have hB : read_separator ':' 0 (read_number 16 (some 4) true 65535) rest =
        (none, rest) := by
      rw [read_separator_zero]
      exact ra_none _ _ _ h0Hex
    rw [read_groups_aux_step_true]
    by_cases hr : r ≥ 1
    · simp only [hr, if_true, hA, hB]
    · simp only [hr, if_false, hB]

/-- The group loop from the first position on a nonempty ':'-separated run of
canonically rendered hex groups. -/
lemma read_groups_first_on (rest : List Char)
    (hrh : ∀ c, rest.head? = some c → charToDigit? 16 c = none)
    (hnd : '.' ∉ rest)
    (hsV4 : read_separator ':' 1 read_ipv4_addr rest = (none, rest))
    (hsHex : read_separator ':' 1 (read_number 16 (some 4) true 65535) rest =
      (none, rest))
    (g : Nat) (gt : List Nat) (rem : Nat) (acc : List Nat)
    (hg : g < 65536) (hgt : ∀ x ∈ gt, x < 65536) (hlen : gt.length + 1 ≤ rem) :
    read_groups_aux true acc rem (hexChars g ++ (glue6 gt ++ rest)) =
      ((acc ++ (g :: gt), false), rest) := by
  cases rem with
  | zero => omega
  | succ r =>
    have hg64 : g < 16 ^ 64 := by
      have h2 : (65536 : Nat) < 16 ^ 64 := by norm_num
      omega
    have hnodotT : '.' ∉ hexChars g ++ (glue6 gt ++ rest) := by
      intro hmem
      rcases List.mem_append.mp hmem with h | h
      · exact hexChars_no_dot g hg64 h
      · rcases List.mem_append.mp h with h | h
        · exact glue6_no_dot gt hgt h
        · exact hnd h
    have hV4 : read_separator ':' 0 read_ipv4_addr
        (hexChars g ++ (glue6 gt ++ rest)) =
        (none, hexChars g ++ (glue6 gt ++ rest)) := by
      rw [read_separator_zero]
      exact ra_none _ _ _ (no_dot_ipv4_fail _ hnodotT)
    have hHex : read_separator ':' 0 (read_number 16 (some 4) true 65535)
        (hexChars g ++ (glue6 gt ++ rest)) = (some g, glue6 gt ++ rest) := by
      rw [read_separator_zero]
      exact ra_some _ _ _ _ (hexGroup_on g hg (glue6 gt ++ rest) (glue6_head_nonhex gt rest hrh))
    have hrec := read_groups_tail_on rest hrh hnd hsV4 hsHex gt r (acc ++ [g]) hgt (by omega)
    rw [read_groups_aux_step_true]
    by_cases hr : r ≥ 1
    · simp only [hr, if_true, hV4, hHex, hrec]
      simp
    · simp only [hr, if_false, hHex, hrec]
      simp

lemma fmtSubslice_no_dot (l : List Nat) (hb : ∀ g ∈ l, g < 65536) :
    '.' ∉ fmtSubslice l := by
  cases l with
  | nil => simp [fmtSubslice]
  | cons g t =>
    rw [fmtSubslice_cons]
    intro hmem
    rcases List.mem_append.mp hmem with h | h
    · exact hexChars_no_dot g
        (by
          have h1 := hb g (by simp)
          have h2 : (65536 : Nat) < 16 ^ 64 := by norm_num
          omega) h
    · exact glue6_no_dot t (fun x hx => hb x (by simp [hx])) h

/-- Over every 8-bit zero pattern: the span the display scan selects stays
inside the segment list, and its segments are all zero (its length is at most
the zero-run length at its start). -/
lemma span_pat_facts : ∀ (b0 b1 b2 b3 b4 b5 b6 b7 : Bool),
    (zeroSpanPat [b0, b1, b2, b3, b4, b5, b6, b7] 0 ⟨0, 0⟩ ⟨0, 0⟩).start +
      (zeroSpanPat [b0, b1, b2, b3, b4, b5, b6, b7] 0 ⟨0, 0⟩ ⟨0, 0⟩).len ≤ 8 ∧
    (zeroSpanPat [b0, b1, b2, b3, b4, b5, b6, b7] 0 ⟨0, 0⟩ ⟨0, 0⟩).len ≤
      runLenPat [b0, b1, b2, b3, b4, b5, b6, b7]
        (zeroSpanPat [b0, b1, b2, b3, b4, b5, b6, b7] 0 ⟨0, 0⟩ ⟨0, 0⟩).start := by
  decide

lemma findZeroSpan_covers (segs : List Nat) (hlen : segs.length = 8) :
    (findZeroSpan segs).start + (findZeroSpan segs).len ≤ 8 ∧
      (findZeroSpan segs).len ≤ runLenAt segs (findZeroSpan segs).start := by
  rcases segs with _ | ⟨s0, _ | ⟨s1, _ | ⟨s2, _ | ⟨s3, _ | ⟨s4, _ | ⟨s5, _ | ⟨s6, _ |
    ⟨s7, _ | ⟨s8, r⟩⟩⟩⟩⟩⟩⟩⟩⟩ <;> simp at hlen
  rw [findZeroSpan, zeroSpanAux_pat, runLenAt_pat]
  simp only [List.map_cons, List.map_nil]
  exact span_pat_facts _ _ _ _ _ _ _ _

lemma take_eq_replicate_of_takeWhile (k : Nat) :
    ∀ (l : List Nat), k ≤ (l.takeWhile (fun x => x = 0)).length →
      l.take k = List.replicate k 0 := by
  induction k with
  | zero => intro l _; simp
  | succ n ih =>
    intro l hk
    cases l with
    | nil => simp at hk
    | cons a t =>
      by_cases ha : a = 0
      · subst ha
        simp [List.takeWhile_cons] at hk
        rw [List.take_succ_cons, List.replicate_succ, ih t (by omega)]
      · exfalso
        rw [List.takeWhile_cons] at hk
        simp [ha] at hk

/-- When the display compresses a span, the segment list splits as
prefix ++ zeros ++ suffix around it. -/
lemma segs_split_at_span (segs : List Nat) (hlen : segs.length = 8) :
    segs = segs.take (findZeroSpan segs).start ++
      (List.replicate (findZeroSpan segs).len 0 ++
        segs.drop ((findZeroSpan segs).start + (findZeroSpan segs).len)) := by
  obtain ⟨hle, hrun⟩ := findZeroSpan_covers segs hlen
  have htake : (segs.drop (findZeroSpan segs).start).take (findZeroSpan segs).len =
      List.replicate (findZeroSpan segs).len 0 :=
    take_eq_replicate_of_takeWhile _ _ (by
      have hdef : runLenAt segs (findZeroSpan segs).start =
          ((segs.drop (findZeroSpan segs).start).takeWhile (fun x => x = 0)).length := rfl
      omega)
  have hdd : (segs.drop (findZeroSpan segs).start).drop (findZeroSpan segs).len =
      segs.drop ((findZeroSpan segs).start + (findZeroSpan segs).len) := by
    rw [List.drop_drop, Nat.add_comm]
  calc segs = segs.take (findZeroSpan segs).start ++ segs.drop (findZeroSpan segs).start :=
        (List.take_append_drop _ segs).symm
    _ = segs.take (findZeroSpan segs).start ++
        ((segs.drop (findZeroSpan segs).start).take (findZeroSpan segs).len ++
          (segs.drop (findZeroSpan segs).start).drop (findZeroSpan segs).len) := by
        rw [List.take_append_drop (findZeroSpan segs).len
          (segs.drop (findZeroSpan segs).start)]
    _ = _ := by rw [htake, hdd]

/-- `read_ipv6_addr` on the display of an IPv4-mapped address: the `::`
prefix yields an empty head chunk, then the tail chunk reads the `ffff`
group and takes the embedded-IPv4 path. -/
lemma read_ipv6_mapped_on (segs : List Nat) (hlen : segs.length = 8)
    (hb : ∀ g ∈ segs, g < 65536) (hmap : isIpv4Mapped segs = true) (rest : List Char)
    (hrh10 : ∀ c, rest.head? = some c → charToDigit? 10 c = none) :
    read_ipv6_addr (ipv6Display ⟨segs⟩ ++ rest) = (some ⟨segs⟩, rest) := by
  rcases segs with _ | ⟨t0, _ | ⟨t1, _ | ⟨t2, _ | ⟨t3, _ | ⟨t4, _ | ⟨t5, _ | ⟨t6, _ |
    ⟨t7, _ | ⟨t8, r⟩⟩⟩⟩⟩⟩⟩⟩⟩ <;> simp at hlen
  have hm : t0 = 0 ∧ t1 = 0 ∧ t2 = 0 ∧ t3 = 0 ∧ t4 = 0 ∧ t5 = 65535 := by
    simpa [isIpv4Mapped] using hmap
  obtain ⟨rfl, rfl, rfl, rfl, rfl, rfl⟩ := hm
  have ht6 : t6 < 65536 := hb t6 (by simp)
  have ht7 : t7 < 65536 := hb t7 (by simp)
  have hdisp : ipv6Display ⟨[0, 0, 0, 0, 0, 65535, t6, t7]⟩ ++ rest =
      ':' :: (':' :: ('f' :: ('f' :: ('f' :: ('f' :: (':' ::
        (ipv4Display ⟨t6 / 256, t6 % 256, t7 / 256, t7 % 256⟩ ++ rest))))))) := rfl
  have hIpv4 : read_ipv4_addr
      (ipv4Display ⟨t6 / 256, t6 % 256, t7 / 256, t7 % 256⟩ ++ rest) =
      (some ⟨t6 / 256, t6 % 256, t7 / 256, t7 % 256⟩, rest) :=
    read_ipv4_on _ _ _ _ (by omega) (by omega) (by omega) (by omega) rest hrh10
  have hHexff : read_separator ':' 0 (read_number 16 (some 4) true 65535)
      ('f' :: ('f' :: ('f' :: ('f' :: (':' ::
        (ipv4Display ⟨t6 / 256, t6 % 256, t7 / 256, t7 % 256⟩ ++ rest)))))) =
      (some 65535,
        ':' :: (ipv4Display ⟨t6 / 256, t6 % 256, t7 / 256, t7 % 256⟩ ++ rest)) := by
    rw [read_separator_zero]
    apply ra_some
    have h := hexGroup_on 65535 (by norm_num)
      (':' :: (ipv4Display ⟨t6 / 256, t6 % 256, t7 / 256, t7 % 256⟩ ++ rest))
      (by
        intro c hc
        simp only [List.head?_cons, Option.some.injEq] at hc
        subst hc
        decide)
    have hff : hexChars 65535 = ['f', 'f', 'f', 'f'] := by decide
    rw [hff] at h
    exact h
  have hV4fail_f : read_separator ':' 0 read_ipv4_addr
      ('f' :: ('f' :: ('f' :: ('f' :: (':' ::
        (ipv4Display ⟨t6 / 256, t6 % 256, t7 / 256, t7 % 256⟩ ++ rest)))))) =
      (none, 'f' :: ('f' :: ('f' :: ('f' :: (':' ::
        (ipv4Display ⟨t6 / 256, t6 % 256, t7 / 256, t7 % 256⟩ ++ rest)))))) := by
    rw [read_separator_zero]
    exact ra_none _ _ _ (head_nondigit_ipv4_fail 'f' _ (by decide) (by decide))
  have hV4hit : read_separator ':' 1 read_ipv4_addr
      (':' :: (ipv4Display ⟨t6 / 256, t6 % 256, t7 / 256, t7 % 256⟩ ++ rest)) =
      (some ⟨t6 / 256, t6 % 256, t7 / 256, t7 % 256⟩, rest) :=
    sep_pos_inner_ok ':' 1 (by norm_num) _ _ _ _ hIpv4
  have h6 : t6 / 256 * 256 + t6 % 256 = t6 := by omega
  have h7 : t7 / 256 * 256 + t7 % 256 = t7 := by omega
  have hTail : read_groups_aux true [] 7
      ('f' :: ('f' :: ('f' :: ('f' :: (':' ::
        (ipv4Display ⟨t6 / 256, t6 % 256, t7 / 256, t7 % 256⟩ ++ rest)))))) =
      (([65535, t6, t7], true), rest) := by
    rw [show (7 : Nat) = 6 + 1 from rfl, read_groups_aux_step_true,
      if_pos (by norm_num : (6 : Nat) ≥ 1)]
    simp only [hV4fail_f, hHexff, List.nil_append]
    rw [show (6 : Nat) = 5 + 1 from rfl, read_groups_aux_step_false,
      if_pos (by norm_num : (5 : Nat) ≥ 1)]
    simp only [hV4hit]
    simp [h6, h7]
  have hHead : read_groups_aux true [] 8
      (':' :: (':' :: ('f' :: ('f' :: ('f' :: ('f' :: (':' ::
        (ipv4Display ⟨t6 / 256, t6 % 256, t7 / 256, t7 % 256⟩ ++ rest)))))))) =
      (([], false), ':' :: (':' :: ('f' :: ('f' :: ('f' :: ('f' :: (':' ::
        (ipv4Display ⟨t6 / 256, t6 % 256, t7 / 256, t7 % 256⟩ ++ rest)))))))) :=
    read_groups_first_stop _ 8 []
      (head_nondigit_ipv4_fail ':' _ (by decide) (by decide))
      (read_number_nodigit 16 (some 4) true 65535 _
        (by
          intro c hc
          simp only [List.head?_cons, Option.some.injEq] at hc
          subst hc
          decide))
  rw [hdisp]
  show read_atomically _ _ = _
  apply ra_some
  simp only [hHead, List.length_nil, read_given_char_hit, hTail]
  rfl

/-- `read_ipv6_addr` parses the canonical display of any 8-segment address
back to exactly the same segments, leaving `rest` (whose head, if any, is
neither a digit of either radix nor ':' nor '.', and which contains no '.')
unconsumed. -/
lemma read_ipv6_on (segs : List Nat) (hlen : segs.length = 8)
    (hb : ∀ g ∈ segs, g < 65536) (rest : List Char)
    (hrh : ∀ c, rest.head? = some c →
      charToDigit? 16 c = none ∧ charToDigit? 10 c = none ∧ c ≠ ':' ∧ c ≠ '.')
    (hnd : '.' ∉ rest) :
    read_ipv6_addr (ipv6Display ⟨segs⟩ ++ rest) = (some ⟨segs⟩, rest) := by
  have hrh16 : ∀ c, rest.head? = some c → charToDigit? 16 c = none :=
    fun c hc => (hrh c hc).1
  have hrh10 : ∀ c, rest.head? = some c → charToDigit? 10 c = none :=
    fun c hc => (hrh c hc).2.1
  have hncol : ∀ c, rest.head? = some c → c ≠ ':' := fun c hc => (hrh c hc).2.2.1
  by_cases hmap : isIpv4Mapped segs = true
  · exact read_ipv6_mapped_on segs hlen hb hmap rest hrh10
  · have hsV4 : read_separator ':' 1 read_ipv4_addr rest = (none, rest) :=
      read_separator_pos_miss ':' 1 (by norm_num) _ rest hncol
    have hsHex : read_separator ':' 1 (read_number 16 (some 4) true 65535) rest =
        (none, rest) :=
      read_separator_pos_miss ':' 1 (by norm_num) _ rest hncol
    have h0V4 : read_ipv4_addr rest = (none, rest) := no_dot_ipv4_fail rest hnd
    have h0Hex : read_number 16 (some 4) true 65535 rest = (none, rest) :=
      read_number_nodigit 16 (some 4) true 65535 rest hrh16
    by_cases hguard : (findZeroSpan segs).len > 1
    · -- compressed display
      obtain ⟨hcov1, hcov2⟩ := findZeroSpan_covers segs hlen
      have hsplit := segs_split_at_span segs hlen
      have hstle : (findZeroSpan segs).start ≤ 6 := by omega
      have hprelen : (segs.take (findZeroSpan segs).start).length =
          (findZeroSpan segs).start := by
        simp [List.length_take, hlen]
        omega
      have hpostlen : (segs.drop ((findZeroSpan segs).start + (findZeroSpan segs).len)).length =
          8 - ((findZeroSpan segs).start + (findZeroSpan segs).len) := by
        rw [List.length_drop, hlen]
      have hbtake : ∀ g ∈ segs.take (findZeroSpan segs).start, g < 65536 :=
        fun g hg => hb g (List.mem_of_mem_take hg)
      have hbdrop : ∀ g ∈ segs.drop ((findZeroSpan segs).start + (findZeroSpan segs).len),
          g < 65536 :=
        fun g hg => hb g (List.mem_of_mem_drop hg)
      have hdisp : ipv6Display ⟨segs⟩ ++ rest =
          fmtSubslice (segs.take (findZeroSpan segs).start) ++
            (':' :: (':' :: (fmtSubslice
              (segs.drop ((findZeroSpan segs).start + (findZeroSpan segs).len)) ++ rest))) := by
        simp only [ipv6Display]
        rw [if_neg hmap, if_pos hguard]
        simp only [List.append_assoc, List.cons_append]
      have hstoprh : ∀ c, (':' :: (':' :: (fmtSubslice
          (segs.drop ((findZeroSpan segs).start + (findZeroSpan segs).len)) ++
            rest))).head? = some c → charToDigit? 16 c = none := by
        intro c hc
        simp only [List.head?_cons, Option.some.injEq] at hc
        subst hc
        decide
      have hstopnd : '.' ∉ ':' :: (':' :: (fmtSubslice
          (segs.drop ((findZeroSpan segs).start + (findZeroSpan segs).len)) ++ rest)) := by
        intro hmem
        simp only [List.mem_cons, List.mem_append] at hmem
        rcases hmem with h | h | h | h
        · exact absurd h (by decide)
        · exact absurd h (by decide)
        · exact fmtSubslice_no_dot _ hbdrop h
        · exact hnd h
      have hstopV4 : read_separator ':' 1 read_ipv4_addr
          (':' :: (':' :: (fmtSubslice
            (segs.drop ((findZeroSpan segs).start + (findZeroSpan segs).len)) ++ rest))) =
          (none, ':' :: (':' :: (fmtSubslice
            (segs.drop ((findZeroSpan segs).start + (findZeroSpan segs).len)) ++ rest))) :=
        sep_pos_inner_fail ':' 1 (by norm_num) _ _ _
          (head_nondigit_ipv4_fail ':' _ (by decide) (by decide))
      have hstopHex : read_separator ':' 1 (read_number 16 (some 4) true 65535)
          (':' :: (':' :: (fmtSubslice
            (segs.drop ((findZeroSpan segs).start + (findZeroSpan segs).len)) ++ rest))) =
          (none, ':' :: (':' :: (fmtSubslice
            (segs.drop ((findZeroSpan segs).start + (findZeroSpan segs).len)) ++ rest))) :=
        sep_pos_inner_fail ':' 1 (by norm_num) _ _ _
          (read_number_nodigit 16 (some 4) true 65535 _
            (by
              intro c hc
              simp only [List.head?_cons, Option.some.injEq] at hc
              subst hc
              decide))
      have hHead : read_groups_aux true [] 8
          (fmtSubslice (segs.take (findZeroSpan segs).start) ++
            (':' :: (':' :: (fmtSubslice
              (segs.drop ((findZeroSpan segs).start + (findZeroSpan segs).len)) ++ rest)))) =
          ((segs.take (findZeroSpan segs).start, false),
            ':' :: (':' :: (fmtSubslice
              (segs.drop ((findZeroSpan segs).start + (findZeroSpan segs).len)) ++ rest))) := by
        rcases hpre : segs.take (findZeroSpan segs).start with _ | ⟨p0, pt⟩
        · simp only [fmtSubslice, List.nil_append]
          exact read_groups_first_stop _ 8 []
            (head_nondigit_ipv4_fail ':' _ (by decide) (by decide))
            (read_number_nodigit 16 (some 4) true 65535 _
              (by
                intro c hc
                simp only [List.head?_cons, Option.some.injEq] at hc
                subst hc
                decide))
        · have hbp0 : p0 < 65536 := by
            have h := hbtake
            rw [hpre] at h
            exact h p0 (by simp)
          have hbpt : ∀ x ∈ pt, x < 65536 := by
            intro x hx
            have h := hbtake
            rw [hpre] at h
            exact h x (by simp [hx])
          have hlenp : pt.length + 1 ≤ 8 := by
            have h := hprelen
            rw [hpre] at h
            simp at h
            omega
          rw [fmtSubslice_cons, List.append_assoc]
          simpa using read_groups_first_on _ hstoprh hstopnd hstopV4 hstopHex
            p0 pt 8 [] hbp0 hbpt hlenp
      have hTail : read_groups_aux true [] (8 - ((findZeroSpan segs).start + 1))
          (fmtSubslice
            (segs.drop ((findZeroSpan segs).start + (findZeroSpan segs).len)) ++ rest) =
          ((segs.drop ((findZeroSpan segs).start + (findZeroSpan segs).len), false),
            rest) := by
        rcases hpost : segs.drop ((findZeroSpan segs).start + (findZeroSpan segs).len)
          with _ | ⟨q0, qt⟩
        · simp only [fmtSubslice, List.nil_append]
          exact read_groups_first_stop rest _ [] h0V4 h0Hex
        · have hbq0 : q0 < 65536 := by
            have h := hbdrop
            rw [hpost] at h
            exact h q0 (by simp)
          have hbqt : ∀ x ∈ qt, x < 65536 := by
            intro x hx
            have h := hbdrop
            rw [hpost] at h
            exact h x (by simp [hx])
          have hlenq : qt.length + 1 ≤ 8 - ((findZeroSpan segs).start + 1) := by
            have h := hpostlen
            rw [hpost] at h
            simp at h
            omega
          rw [fmtSubslice_cons, List.append_assoc]
          simpa using read_groups_first_on rest hrh16 hnd hsV4 hsHex
            q0 qt (8 - ((findZeroSpan segs).start + 1)) [] hbq0 hbqt hlenq
      rw [hdisp]
      show read_atomically _ _ = _
      apply ra_some
      simp only [hHead]
      rw [hprelen]
      rw [if_neg (show ¬((findZeroSpan segs).start = 8) by omega)]
      simp only [Bool.false_eq_true, if_false, read_given_char_hit, hTail]
      rw [hpostlen]
      rw [show 8 - (findZeroSpan segs).start -
          (8 - ((findZeroSpan segs).start + (findZeroSpan segs).len)) =
          (findZeroSpan segs).len from by omega]
      rw [List.append_assoc, ← hsplit]
    · -- uncompressed display
      have hdisp : ipv6Display ⟨segs⟩ ++ rest = fmtSubslice segs ++ rest := by
        simp only [ipv6Display]
        rw [if_neg hmap, if_neg hguard]
      rcases hsegs : segs with _ | ⟨g0, gt⟩
      · rw [hsegs] at hlen
        simp at hlen
      · subst hsegs
        have hlen7 : gt.length = 7 := by
          simp at hlen
          omega
        have hHead : read_groups_aux true [] 8 (hexChars g0 ++ (glue6 gt ++ rest)) =
            ((g0 :: gt, false), rest) := by
          simpa using read_groups_first_on rest hrh16 hnd hsV4 hsHex g0 gt 8 []
            (hb g0 (by simp)) (fun x hx => hb x (by simp [hx])) (by omega)
        rw [hdisp, fmtSubslice_cons, List.append_assoc]
        show read_atomically _ _ = _
        apply ra_some
        simp only [hHead]
        rw [if_pos hlen]

/-! ### Socket-level round trips on canonical displays -/

lemma read_port_on (p : Nat) (hp : p ≤ 65535) (rest : List Char)
    (hrest : ∀ c, rest.head? = some c → charToDigit? 10 c = none) :
    read_port (':' :: (decChars p ++ rest)) = (some p, rest) := by
  have hp64 : p < 10 ^ 64 := by
    have h2 : (65536 : Nat) < 10 ^ 64 := by norm_num
    omega
  show read_atomically _ _ = _
  apply ra_some
  rw [pseq_some _ _ _ _ _ (read_given_char_hit ':' _)]
  have h := read_number_on 10 none true 65535 (decChars p) rest (by norm_num)
    (natToChars_ne_nil 10 p) (decChars_digits p hp64) hrest
    (by rw [decChars_val p hp64]; omega)
    (by intro m hm; simp at hm) (Or.inl rfl)
  rw [h, decChars_val p hp64]

lemma read_scope_miss (s : List Char) (h : ∀ c, s.head? = some c → c ≠ '%') :
    read_scope_id s = (none, s) := by
  show read_atomically _ _ = _
  apply ra_none _ _ s
  exact pseq_none _ _ _ _ (read_given_char_miss '%' s h)

lemma read_scope_on (sc : Nat) (hsc : sc ≤ 4294967295) (rest : List Char)
    (hrest : ∀ c, rest.head? = some c → charToDigit? 10 c = none) :
    read_scope_id ('%' :: (decChars sc ++ rest)) = (some sc, rest) := by
  have hsc64 : sc < 10 ^ 64 := by
    have h2 : (4294967296 : Nat) < 10 ^ 64 := by norm_num
    omega
  show read_atomically _ _ = _
  apply ra_some
  rw [pseq_some _ _ _ _ _ (read_given_char_hit '%' _)]
  have h := read_number_on 10 none true 4294967295 (decChars sc) rest (by norm_num)
    (natToChars_ne_nil 10 sc) (decChars_digits sc hsc64) hrest
    (by rw [decChars_val sc hsc64]; omega)
    (by intro m hm; simp at hm) (Or.inl rfl)
  rw [h, decChars_val sc hsc64]

/-- An IPv4-with-port socket reader fails without consuming on a
'['-bracketed input. -/
lemma sock_v4_fail_bracket (t : List Char) :
    read_socket_addr_v4 ('[' :: t) = (none, '[' :: t) := by
  show read_atomically _ _ = _
  apply ra_none _ _ ('[' :: t)
  exact pseq_none _ _ _ _ (head_nondigit_ipv4_fail '[' t (by decide) (by decide))

lemma read_socket_addr_v4_on (a b c d p : Nat)
    (ha : a ≤ 255) (hb : b ≤ 255) (hc : c ≤ 255) (hd : d ≤ 255) (hp : p ≤ 65535) :
    read_socket_addr_v4 (socketV4Display ⟨⟨a, b, c, d⟩, p⟩) =
      (some ⟨⟨a, b, c, d⟩, p⟩, []) := by
  have hport : read_port (':' :: decChars p) = (some p, []) := by
    have h := read_port_on p hp [] (by intro c hcc; simp at hcc)
    simpa using h
  have hdisp : socketV4Display ⟨⟨a, b, c, d⟩, p⟩ =
      ipv4Display ⟨a, b, c, d⟩ ++ (':' :: decChars p) := rfl
  rw [hdisp]
  show read_atomically _ _ = _
  apply ra_some
  rw [pseq_some _ _ _ _ _ (read_ipv4_on a b c d ha hb hc hd (':' :: decChars p)
    (by
      intro x hx
      simp only [List.head?_cons, Option.some.injEq] at hx
      subst hx
      decide))]
  rw [pseq_some _ _ _ _ _ hport]
  rfl

lemma socketV4_roundtrip (a b c d p : Nat)
    (ha : a ≤ 255) (hb : b ≤ 255) (hc : c ≤ 255) (hd : d ≤ 255) (hp : p ≤ 65535) :
    socketParse (socketV4Display ⟨⟨a, b, c, d⟩, p⟩) =
      some (SocketAddr.V4 ⟨⟨a, b, c, d⟩, p⟩) := by
  apply parse_with_of
  have h4 := read_socket_addr_v4_on a b c d p ha hb hc hd hp
  simp [read_socket_addr, or_else, h4]

lemma read_socket_addr_v6_on (segs : List Nat) (p sc : Nat) (hlen : segs.length = 8)
    (hbs : ∀ g ∈ segs, g < 65536) (hp : p ≤ 65535) (hsc : sc ≤ 4294967295) :
    read_socket_addr_v6 (socketV6Display ⟨⟨segs⟩, p, 0, sc⟩) =
      (some ⟨⟨segs⟩, p, 0, sc⟩, []) := by
  have hp64 : p < 10 ^ 64 := by
    have h2 : (65536 : Nat) < 10 ^ 64 := by norm_num
    omega
  have hsc64 : sc < 10 ^ 64 := by
    have h2 : (4294967296 : Nat) < 10 ^ 64 := by norm_num
    omega
  have hport : read_port (':' :: decChars p) = (some p, []) := by
    have h := read_port_on p hp [] (by intro c hcc; simp at hcc)
    simpa using h
  by_cases hsc0 : sc = 0
  · subst hsc0
    have hdisp : socketV6Display ⟨⟨segs⟩, p, 0, 0⟩ =
        '[' :: (ipv6Display ⟨segs⟩ ++ (']' :: (':' :: decChars p))) := by
      simp [socketV6Display]
    have hrh : ∀ c, ((']' :: (':' :: decChars p)) : List Char).head? = some c →
        charToDigit? 16 c = none ∧ charToDigit? 10 c = none ∧ c ≠ ':' ∧ c ≠ '.' := by
      intro c hcc
      simp only [List.head?_cons, Option.some.injEq] at hcc
      subst hcc
      exact ⟨by decide, by decide, by decide, by decide⟩
    have hnd : '.' ∉ (']' :: (':' :: decChars p) : List Char) := by
      intro hmem
      simp only [List.mem_cons] at hmem
      rcases hmem with h | h | h
      · exact absurd h (by decide)
      · exact absurd h (by decide)
      · exact decChars_no_dot p hp64 h
    have hv6 := read_ipv6_on segs hlen hbs (']' :: (':' :: decChars p)) hrh hnd
    have hscope : read_scope_id ((']' :: (':' :: decChars p)) : List Char) =
        (none, ']' :: (':' :: decChars p)) :=
      read_scope_miss _ (by
        intro c hcc
        simp only [List.head?_cons, Option.some.injEq] at hcc
        subst hcc
        decide)
    rw [hdisp]
    show read_atomically _ _ = _
    apply ra_some
    rw [pseq_some _ _ _ _ _ (read_given_char_hit '[' _)]
    rw [pseq_some _ _ _ _ _ hv6]
    simp only [hscope]
    rw [pseq_some _ _ _ _ _ (read_given_char_hit ']' _)]
    rw [pseq_some _ _ _ _ _ hport]
    rfl
  · have hdisp : socketV6Display ⟨⟨segs⟩, p, 0, sc⟩ =
        '[' :: (ipv6Display ⟨segs⟩ ++
          ('%' :: (decChars sc ++ (']' :: (':' :: decChars p))))) := by
      simp [socketV6Display, hsc0]
    have hrh : ∀ c, (('%' :: (decChars sc ++ (']' :: (':' :: decChars p)))) :
        List Char).head? = some c →
        charToDigit? 16 c = none ∧ charToDigit? 10 c = none ∧ c ≠ ':' ∧ c ≠ '.' := by
      intro c hcc
      simp only [List.head?_cons, Option.some.injEq] at hcc
      subst hcc
      exact ⟨by decide, by decide, by decide, by decide⟩
    have hnd : '.' ∉ ('%' :: (decChars sc ++ (']' :: (':' :: decChars p))) : List Char) := by
      intro hmem
      simp only [List.mem_cons, List.mem_append] at hmem
      rcases hmem with h | h | h | h | h
      · exact absurd h (by decide)
      · exact decChars_no_dot sc hsc64 h
      · exact absurd h (by decide)
      · exact absurd h (by decide)
      · exact decChars_no_dot p hp64 h
    have hv6 := read_ipv6_on segs hlen hbs
      ('%' :: (decChars sc ++ (']' :: (':' :: decChars p)))) hrh hnd
    have hscope : read_scope_id ('%' :: (decChars sc ++ (']' :: (':' :: decChars p)))) =
        (some sc, ']' :: (':' :: decChars p)) :=
      read_scope_on sc hsc (']' :: (':' :: decChars p))
        (by
          intro c hcc
          simp only [List.head?_cons, Option.some.injEq] at hcc
          subst hcc
          decide)
    rw [hdisp]
    show read_atomically _ _ = _
    apply ra_some
    rw [pseq_some _ _ _ _ _ (read_given_char_hit '[' _)]
    rw [pseq_some _ _ _ _ _ hv6]
    simp only [hscope]
    rw [pseq_some _ _ _ _ _ (read_given_char_hit ']' _)]
    rw [pseq_some _ _ _ _ _ hport]
    rfl

lemma socketV6_roundtrip (segs : List Nat) (p sc : Nat) (hlen : segs.length = 8)
    (hbs : ∀ g ∈ segs, g < 65536) (hp : p ≤ 65535) (hsc : sc ≤ 4294967295) :
    socketParse (socketV6Display ⟨⟨segs⟩, p, 0, sc⟩) =
      some (SocketAddr.V6 ⟨⟨segs⟩, p, 0, sc⟩) := by
  have h6 := read_socket_addr_v6_on segs p sc hlen hbs hp hsc
  apply parse_with_of
  have h4 : read_socket_addr_v4 (socketV6Display ⟨⟨segs⟩, p, 0, sc⟩) =
      (none, socketV6Display ⟨⟨segs⟩, p, 0, sc⟩) := by
    by_cases h0 : sc = 0
    · rw [show socketV6Display ⟨⟨segs⟩, p, 0, sc⟩ =
        '[' :: (ipv6Display ⟨segs⟩ ++ (']' :: (':' :: decChars p))) from by
          simp [socketV6Display, h0]]
      exact sock_v4_fail_bracket _
    · rw [show socketV6Display ⟨⟨segs⟩, p, 0, sc⟩ =
        '[' :: (ipv6Display ⟨segs⟩ ++
          ('%' :: (decChars sc ++ (']' :: (':' :: decChars p))))) from by
          simp [socketV6Display, h0]]
      exact sock_v4_fail_bracket _
  simp [read_socket_addr, or_else, h4, h6]

/-! ### Inversion: bounds carried by successfully parsed socket values -/

lemma read_port_inv (s s' : List Char) (p : Nat) (h : read_port s = (some p, s')) :
    p ≤ 65535 := by
  have h1 := ra_inv _ s s' p h
  obtain ⟨u, s₁, _, h2⟩ := pseq_inv _ _ s s' p h1
  obtain ⟨ds, _, _, _, _, _, hb, _, _⟩ := read_number_inv 10 none true 65535 s₁ p s' h2
  exact hb

lemma read_scope_id_inv (s s' : List Char) (sc : Nat)
    (h : read_scope_id s = (some sc, s')) : sc ≤ 4294967295 := by
  have h1 := ra_inv _ s s' sc h
  obtain ⟨u, s₁, _, h2⟩ := pseq_inv _ _ s s' sc h1
  obtain ⟨ds, _, _, _, _, _, hb, _, _⟩ :=
    read_number_inv 10 none true 4294967295 s₁ sc s' h2
  exact hb

lemma read_separator_inv_any {α : Type} (sep : Char) (idx : Nat) (inner : P α)
    (s s' : List Char) (v : α) (h : read_separator sep idx inner s = (some v, s')) :
    ∃ s₀, inner s₀ = (some v, s') := by
  rcases Nat.eq_zero_or_pos idx with h0 | hpos
  · subst h0
    exact ⟨s, read_separator_inv_zero sep inner s s' v h⟩
  · obtain ⟨s₁, _, hin⟩ := read_separator_inv_pos sep idx hpos inner s s' v h
    exact ⟨s₁, hin⟩

/-- Every group collected by the loop is a 16-bit value, and at most `rem`
groups are appended to the accumulator. -/
lemma read_groups_aux_bounds :
    ∀ (rem : Nat) (first : Bool) (acc : List Nat) (s : List Char)
      (gs : List Nat) (flag : Bool) (s' : List Char),
      read_groups_aux first acc rem s = ((gs, flag), s') →
      (∀ g ∈ acc, g < 65536) →
      (∀ g ∈ gs, g < 65536) ∧ gs.length ≤ acc.length + rem := by
  intro rem
  induction rem with
  | zero =>
    intro first acc s gs flag s' h hacc
    have h0 : read_groups_aux first acc 0 s = ((acc, false), s) := rfl
    rw [h0] at h
    simp only [Prod.mk.injEq] at h
    obtain ⟨⟨h1, _⟩, _⟩ := h
    subst h1
    exact ⟨hacc, by omega⟩
  | succ r ih =>
    intro first acc s gs flag s' h hacc
    have hhex : ∀ (idx : Nat) (s₁ s₂ : List Char) (g : Nat),
        read_separator ':' idx (read_number 16 (some 4) true 65535) s₁ = (some g, s₂) →
        read_groups_aux false (acc ++ [g]) r s₂ = ((gs, flag), s') →
        (∀ x ∈ gs, x < 65536) ∧ gs.length ≤ acc.length + (r + 1) := by
      intro idx s₁ s₂ g hsep hrec
      obtain ⟨s₀, hnum⟩ := read_separator_inv_any ':' idx _ s₁ s₂ g hsep
      obtain ⟨ds, _, _, _, _, _, hgb, _, _⟩ :=
        read_number_inv 16 (some 4) true 65535 s₀ g s₂ hnum
      have hacc' : ∀ x ∈ acc ++ [g], x < 65536 := by
        intro x hx
        rcases List.mem_append.mp hx with h1 | h1
        · exact hacc x h1
        · simp at h1
          omega
      obtain ⟨hb1, hl1⟩ := ih false (acc ++ [g]) s₂ gs flag s' hrec hacc'
      refine ⟨hb1, ?_⟩
      simp at hl1
      omega
    have hipv4 : ∀ (idx : Nat) (s₁ s₂ : List Char) (v4 : Ipv4Addr),
        read_separator ':' idx read_ipv4_addr s₁ = (some v4, s₂) →
        acc ++ [v4.a * 256 + v4.b, v4.c * 256 + v4.d] = gs → 1 ≤ r →
        (∀ x ∈ gs, x < 65536) ∧ gs.length ≤ acc.length + (r + 1) := by
      intro idx s₁ s₂ v4 hsep hgs hr1
      obtain ⟨s₀, hv4⟩ := read_separator_inv_any ':' idx _ s₁ s₂ v4 hsep
      obtain ⟨d1, d2, d3, d4, _, _, _, _, _, _, hoa, hob, hoc, hod, _⟩ :=
        read_ipv4_inv s₀ s₂ v4 hv4
      subst hgs
      constructor
      · intro x hx
        rcases List.mem_append.mp hx with h1 | h1
        · exact hacc x h1
        · simp at h1
          rcases h1 with h1 | h1 <;> omega
      · simp
        omega
    cases first with
    | true =>
      rw [read_groups_aux_step_true] at h
      by_cases hr : r ≥ 1
      · rw [if_pos hr] at h
        split at h
        · rename_i v4 s₂ hsep
          simp only [Prod.mk.injEq] at h
          exact hipv4 0 s s₂ v4 hsep h.1.1 hr
        · rename_i s₁ hsepfail
          split at h
          · rename_i g s₂ hsep
            exact hhex 0 s₁ s₂ g hsep h
          · rename_i s₂ hsepfail2
            simp only [Prod.mk.injEq] at h
            obtain ⟨⟨h1, _⟩, _⟩ := h
            subst h1
            exact ⟨hacc, by omega⟩
      · rw [if_neg hr] at h
        split at h
        · rename_i g s₂ hsep
          exact hhex 0 s s₂ g hsep h
        · rename_i s₂ hsepfail2
          simp only [Prod.mk.injEq] at h
          obtain ⟨⟨h1, _⟩, _⟩ := h
          subst h1
          exact ⟨hacc, by omega⟩
    | false =>
      rw [read_groups_aux_step_false] at h
      by_cases hr : r ≥ 1
      · rw [if_pos hr] at h
        split at h
        · rename_i v4 s₂ hsep
          simp only [Prod.mk.injEq] at h
          exact hipv4 1 s s₂ v4 hsep h.1.1 hr
        · rename_i s₁ hsepfail
          split at h
          · rename_i g s₂ hsep
            exact hhex 1 s₁ s₂ g hsep h
          · rename_i s₂ hsepfail2
            simp only [Prod.mk.injEq] at h
            obtain ⟨⟨h1, _⟩, _⟩ := h
            subst h1
            exact ⟨hacc, by omega⟩
      · rw [if_neg hr] at h
        split at h
        · rename_i g s₂ hsep
          exact hhex 1 s s₂ g hsep h
        · rename_i s₂ hsepfail2
          simp only [Prod.mk.injEq] at h
          obtain ⟨⟨h1, _⟩, _⟩ := h
          subst h1
          exact ⟨hacc, by omega⟩

/-- A successfully parsed IPv6 value has exactly 8 segments, all 16-bit. -/
lemma read_ipv6_inv (s s' : List Char) (v : Ipv6Addr)
    (h : read_ipv6_addr s = (some v, s')) :
    v.segments.length = 8 ∧ ∀ g ∈ v.segments, g < 65536 := by
  have h1 := ra_inv _ s s' v h
  rcases hG : read_groups_aux true [] 8 s with ⟨⟨head, hIp⟩, s1⟩
  obtain ⟨hbH, hlH⟩ := read_groups_aux_bounds 8 true [] s head hIp s1 hG
    (by intro g hg; simp at hg)
  simp at hlH
  simp only [hG] at h1
  by_cases hl : head.length = 8
  · rw [if_pos hl] at h1
    simp only [Prod.mk.injEq, Option.some.injEq] at h1
    obtain ⟨h2, _⟩ := h1
    subst h2
    exact ⟨hl, hbH⟩
  · rw [if_neg hl] at h1
    cases hIp with
    | true => simp at h1
    | false =>
      simp only [Bool.false_eq_true, if_false] at h1
      split at h1
      · simp at h1
      · rename_i u s2 hrgc1
        split at h1
        · simp at h1
        · rename_i u2 s3 hrgc2
          rcases hT : read_groups_aux true [] (8 - (head.length + 1)) s3
            with ⟨⟨tail, tIp⟩, s4⟩
          rw [hT] at h1
          simp only [Prod.mk.injEq, Option.some.injEq] at h1
          obtain ⟨h2, _⟩ := h1
          subst h2
          obtain ⟨hbT, hlT⟩ := read_groups_aux_bounds (8 - (head.length + 1)) true []
            s3 tail tIp s4 hT (by intro g hg; simp at hg)
          simp at hlT
          constructor
          · simp only [List.length_append, List.length_replicate]
            omega
          · intro g hg
            simp only [List.mem_append] at hg
            rcases hg with (hg | hg) | hg
            · exact hbH g hg
            · have := List.eq_of_mem_replicate hg
              omega
            · exact hbT g hg

lemma read_socket_addr_v4_inv (s s' : List Char) (w : SocketAddrV4)
    (h : read_socket_addr_v4 s = (some w, s')) :
    w.ip.a ≤ 255 ∧ w.ip.b ≤ 255 ∧ w.ip.c ≤ 255 ∧ w.ip.d ≤ 255 ∧ w.port ≤ 65535 := by
  have h1 := ra_inv _ s s' w h
  obtain ⟨ip, s1, hip, h2⟩ := pseq_inv _ _ s s' w h1
  obtain ⟨pt, s2, hpt, h3⟩ := pseq_inv _ _ s1 s' w h2
  have hw : w = ⟨ip, pt⟩ ∧ s2 = s' := by
    simp only [ppure, Prod.mk.injEq, Option.some.injEq] at h3
    exact ⟨h3.1.symm, h3.2⟩
  obtain ⟨rfl, rfl⟩ := hw
  obtain ⟨d1, d2, d3, d4, _, _, _, _, _, _, hoa, hob, hoc, hod, _⟩ :=
    read_ipv4_inv s s1 ip hip
  exact ⟨hoa, hob, hoc, hod, read_port_inv _ _ _ hpt⟩

lemma read_socket_addr_v6_inv (s s' : List Char) (w : SocketAddrV6)
    (h : read_socket_addr_v6 s = (some w, s')) :
    w.ip.segments.length = 8 ∧ (∀ g ∈ w.ip.segments, g < 65536) ∧
      w.flowinfo = 0 ∧ w.port ≤ 65535 ∧ w.scope_id ≤ 4294967295 := by
  have h1 := ra_inv _ s s' w h
  obtain ⟨u, s1, _, h2⟩ := pseq_inv _ _ s s' w h1
  obtain ⟨ip, s2, hip, h3⟩ := pseq_inv _ _ s1 s' w h2
  rcases hsc : read_scope_id s2 with ⟨scopeOpt, s3⟩
  simp only [hsc] at h3
  obtain ⟨u2, s4, _, h4⟩ := pseq_inv _ _ s3 s' w h3
  obtain ⟨pt, s5, hpt, h5⟩ := pseq_inv _ _ s4 s' w h4
  have hw : w = ⟨ip, pt, 0, scopeOpt.getD 0⟩ ∧ s5 = s' := by
    simp only [ppure, Prod.mk.injEq, Option.some.injEq] at h5
    exact ⟨h5.1.symm, h5.2⟩
  obtain ⟨rfl, rfl⟩ := hw
  obtain ⟨hl6, hb6⟩ := read_ipv6_inv s1 s2 ip hip
  refine ⟨hl6, hb6, rfl, read_port_inv _ _ _ hpt, ?_⟩
  cases scopeOpt with
  | none => simp
  | some sc =>
    simpa using read_scope_id_inv s2 s3 sc hsc

/-- A `socketParse` result in the IPv4 family came from a successful
`read_socket_addr_v4` that consumed the whole input. -/
lemma socketParse_v4_branch (s : List Char) (w : SocketAddrV4)
    (h : socketParse s = some (SocketAddr.V4 w)) :
    ∃ s₀, read_socket_addr_v4 s₀ = (some w, []) := by
  have hr := parse_with_some _ _ _ h
  simp only [read_socket_addr, or_else] at hr
  rcases h4 : read_socket_addr_v4 s with ⟨o4, s4⟩
  rw [h4] at hr
  cases o4 with
  | some w4 =>
    simp at hr
    obtain ⟨hw, hs⟩ := hr
    exact ⟨s, by rw [h4, hw, hs]⟩
  | none =>
    simp only [Option.map_none'] at hr
    rcases h6 : read_socket_addr_v6 s4 with ⟨o6, s6⟩
    rw [h6] at hr
    cases o6 with
    | some w6 => simp at hr
    | none =>
      simp only [Option.map_none'] at hr
      rcases hS : read_socket_addr_scion s6 with ⟨oS, sS⟩
      rw [hS] at hr
      cases oS with
      | some wS => simp at hr
      | none => simp at hr

/-- A `socketParse` result in the IPv6 family came from a successful
`read_socket_addr_v6` that consumed the whole input. -/
lemma socketParse_v6_branch (s : List Char) (w : SocketAddrV6)
    (h : socketParse s = some (SocketAddr.V6 w)) :
    ∃ s₀, read_socket_addr_v6 s₀ = (some w, []) := by
  have hr := parse_with_some _ _ _ h
  simp only [read_socket_addr, or_else] at hr
  rcases h4 : read_socket_addr_v4 s with ⟨o4, s4⟩
  rw [h4] at hr
  cases o4 with
  | some w4 => simp at hr
  | none =>
    simp only [Option.map_none'] at hr
    rcases h6 : read_socket_addr_v6 s4 with ⟨o6, s6⟩
    rw [h6] at hr
    cases o6 with
    | some w6 =>
      simp at hr
      obtain ⟨hw, hs⟩ := hr
      exact ⟨s4, by rw [h6, hw, hs]⟩
    | none =>
      simp only [Option.map_none'] at hr
      rcases hS : read_socket_addr_scion s6 with ⟨oS, sS⟩
      rw [hS] at hr
      cases oS with
      | some wS => simp at hr
      | none => simp at hr

end ScionNet

/-- Claim C1: for every `isd` in `[0, 65535]` and every `as` in `[0, 2^48)`,
unpacking the packed 64-bit identifier recovers both fields exactly:
`as_from_ia (make_ia isd as) = as` and `isd_from_ia (make_ia isd as) = isd`. -/
theorem c1_ia_codec_roundtrip (isd as_ : Nat) (_hisd : isd ≤ 65535) (has : as_ < 2 ^ 48) :
    ScionNet.as_from_ia (ScionNet.make_ia isd as_) = as_ ∧
    ScionNet.isd_from_ia (ScionNet.make_ia isd as_) = isd := by
  refine ⟨ScionNet.ia_unpack_as isd as_ has, ScionNet.ia_unpack_isd isd as_ has⟩

/-- Witness for C1 at `isd = 19`, `as = 281105609592935`. -/
theorem c1_ia_codec_roundtrip_witness :
    ScionNet.as_from_ia (ScionNet.make_ia 19 281105609592935) = 281105609592935 ∧
    ScionNet.isd_from_ia (ScionNet.make_ia 19 281105609592935) = 19 :=
  c1_ia_codec_roundtrip 19 281105609592935 (by norm_num) (by norm_num)

/-- Claim C9: every parse attempt run through the atomic wrapper is
all-or-nothing: for every input and every inner reader, if the atomic read
returns `None` then the scanner's remaining-input state after the call equals
its state before the call, so a failed sub-parse never consumes any input. -/
theorem c9_read_atomically_restores {α : Type} (inner : ScionNet.P α) (s : List Char)
    (h : (ScionNet.read_atomically inner s).1 = none) :
    (ScionNet.read_atomically inner s).2 = s := by
  unfold ScionNet.read_atomically at h ⊢
  rcases hi : inner s with ⟨o, s'⟩
  cases o <;> simp [hi] at h ⊢

/-- Witness for C9: the raw character reader fails on empty input through the
atomic wrapper, and the state is preserved. -/
theorem c9_read_atomically_restores_witness :
    (ScionNet.read_atomically ScionNet.read_char []).1 = none ∧
    (ScionNet.read_atomically ScionNet.read_char []).2 = [] :=
  ⟨rfl, c9_read_atomically_restores ScionNet.read_char [] rfl⟩

/-- Claim C2: parsing `"19-ffaa:1:1067,127.0.0.1:53"` as a SCION socket
address succeeds and yields ISD 19, AS number 281105609592935, packed IA
5629130167095399, host 127.0.0.1 and port 53, and formatting that value
produces exactly the same string again. -/
theorem c2_scion_socket_example :
    ScionNet.socketScionParse "19-ffaa:1:1067,127.0.0.1:53".toList =
      some ⟨⟨5629130167095399, ScionNet.IpAddr.V4 ⟨127, 0, 0, 1⟩⟩, 53⟩ ∧
    ScionNet.isd_from_ia 5629130167095399 = 19 ∧
    ScionNet.as_from_ia 5629130167095399 = 281105609592935 ∧
    ScionNet.socketScionDisplay ⟨⟨5629130167095399, ScionNet.IpAddr.V4 ⟨127, 0, 0, 1⟩⟩, 53⟩ =
      "19-ffaa:1:1067,127.0.0.1:53".toList := by
  refine ⟨by decide, by decide, by decide, by decide⟩

/-- Claim C7: IPv4 parsing rejects any octet with more than one digit and a
leading zero — "01.0.0.1" fails — and every accepted IPv4 string consists of
exactly four decimal groups of 1-3 digits separated by '.', each without a
leading zero when longer than one digit. -/
theorem c7_ipv4_octet_grammar :
    ScionNet.ipv4Parse "01.0.0.1".toList = none ∧
    ∀ s v, ScionNet.ipv4Parse s = some v →
      ∃ d1 d2 d3 d4, s = d1 ++ ('.' :: (d2 ++ ('.' :: (d3 ++ ('.' :: d4))))) ∧
        ScionNet.ipv4Group d1 ∧ ScionNet.ipv4Group d2 ∧
        ScionNet.ipv4Group d3 ∧ ScionNet.ipv4Group d4 := by
  constructor
  · decide
  · intro s v h
    have hp : ScionNet.parse_with ScionNet.read_ipv4_addr s = some v := by
      by_cases hlen : s.length > 15
      · simp [ScionNet.ipv4Parse, hlen] at h
      · simpa [ScionNet.ipv4Parse, hlen] using h
    have hr := ScionNet.parse_with_some _ _ _ hp
    obtain ⟨d1, d2, d3, d4, hsplit, h1, h2, h3, h4, _⟩ :=
      ScionNet.read_ipv4_inv s [] v hr
    refine ⟨d1, d2, d3, d4, ?_, h1, h2, h3, h4⟩
    simpa using hsplit

/-- Witness for C7 at "127.0.0.1". -/
theorem c7_ipv4_octet_grammar_witness :
    ScionNet.ipv4Parse "01.0.0.1".toList = none ∧
    (∃ d1 d2 d3 d4,
      "127.0.0.1".toList = d1 ++ ('.' :: (d2 ++ ('.' :: (d3 ++ ('.' :: d4))))) ∧
      ScionNet.ipv4Group d1 ∧ ScionNet.ipv4Group d2 ∧
      ScionNet.ipv4Group d3 ∧ ScionNet.ipv4Group d4) :=
  ⟨c7_ipv4_octet_grammar.1,
   c7_ipv4_octet_grammar.2 "127.0.0.1".toList ⟨127, 0, 0, 1⟩ (by decide)⟩

/-- Claim C10: the ISD is accumulated into a 16-bit integer with checked
arithmetic, so every SCION address or SCION socket string whose ISD decimal
value exceeds 65535 fails to parse rather than wrapping around. -/
theorem c10_isd_checked_overflow (ds rest : List Char) (hne : ds ≠ [])
    (hds : ∀ c ∈ ds, ScionNet.isDigitCh 10 c = true)
    (hval : ScionNet.valChars 10 ds > 65535) :
    ScionNet.scionAddrParse (ds ++ ('-' :: rest)) = none ∧
    ScionNet.socketScionParse (ds ++ ('-' :: rest)) = none := by
  have hds' : ∀ c ∈ ds, (ScionNet.charToDigit? 10 c).isSome := by
    intro c hc
    have := hds c hc
    simpa [ScionNet.isDigitCh] using this
  have hdash : ∀ c, (('-' :: rest) : List Char).head? = some c →
      ScionNet.charToDigit? 10 c = none := by
    intro c hc
    simp at hc
    subst hc
    decide
  have hnum := ScionNet.read_number_overflow 10 (some 6) true 65535 ds ('-' :: rest)
    hne hds' hdash hval
  have hscion : ScionNet.read_scion_addr (ds ++ ('-' :: rest)) =
      (none, ds ++ ('-' :: rest)) := by
    apply ScionNet.ra_none
    exact ScionNet.pseq_none _ _ _ _ hnum
  refine ⟨ScionNet.parse_with_none _ _ _ hscion, ?_⟩
  apply ScionNet.parse_with_none _ _ (ds ++ ('-' :: rest))
  apply ScionNet.ra_none
  exact ScionNet.pseq_none _ _ _ _ hscion

/-- Witness for C10 at the six-digit ISD "100000". -/
theorem c10_isd_checked_overflow_witness :
    ScionNet.scionAddrParse ("100000".toList ++ ('-' :: "1,127.0.0.1".toList)) = none ∧
    ScionNet.socketScionParse ("100000".toList ++ ('-' :: "1,127.0.0.1".toList)) = none :=
  c10_isd_checked_overflow "100000".toList "1,127.0.0.1".toList (by decide) (by decide)
    (by decide)

/-- Counterexample for Claim C8: the claim's final clause ("only the
one-group short form and the three-group full form are accepted") is false:
the degenerate colon-led AS text ":5" is accepted by the reader (yielding
AS 0), so "1-:5,127.0.0.1" parses successfully as a SCION address. -/
theorem c8_colon_led_as_accepted :
    ScionNet.scionAddrParse "1-:5,127.0.0.1".toList =
      some ⟨ScionNet.make_ia 1 0, ScionNet.IpAddr.V4 ⟨127, 0, 0, 1⟩⟩ := by
  decide

/-- Claim C8 (amended): an AS text of exactly two colon-separated hex groups
is rejected, so every SCION address or SCION socket string whose AS component
has exactly two maximal hex groups fails to parse.  (The claim's closing
clause is amended: besides the one-group and three-group forms, the reader
also accepts degenerate colon-led forms such as ":5", because a failed group
read with no groups seen yet does not abort the loop.) -/
theorem c8_two_group_as_rejected (isdDs g1 g2 rest : List Char)
    (hisdne : isdDs ≠ []) (hisdd : ∀ c ∈ isdDs, ScionNet.isDigitCh 10 c = true)
    (hisdlen : isdDs.length ≤ 6) (hisdval : ScionNet.valChars 10 isdDs ≤ 65535)
    (hg1ne : g1 ≠ []) (hg1d : ∀ c ∈ g1, ScionNet.isDigitCh 16 c = true)
    (hg1len : g1.length ≤ 4)
    (hg2ne : g2 ≠ []) (hg2d : ∀ c ∈ g2, ScionNet.isDigitCh 16 c = true)
    (hg2len : g2.length ≤ 4) :
    ScionNet.scionAddrParse
      (isdDs ++ ('-' :: (g1 ++ (':' :: (g2 ++ (',' :: rest)))))) = none ∧
    ScionNet.socketScionParse
      (isdDs ++ ('-' :: (g1 ++ (':' :: (g2 ++ (',' :: rest)))))) = none := by
  have hisdd' : ∀ c ∈ isdDs, (ScionNet.charToDigit? 10 c).isSome := by
    intro c hc
    have := hisdd c hc
    simpa [ScionNet.isDigitCh] using this
  have hg1d' : ∀ c ∈ g1, (ScionNet.charToDigit? 16 c).isSome := by
    intro c hc
    have := hg1d c hc
    simpa [ScionNet.isDigitCh] using this
  have hg2d' : ∀ c ∈ g2, (ScionNet.charToDigit? 16 c).isSome := by
    intro c hc
    have := hg2d c hc
    simpa [ScionNet.isDigitCh] using this
  have hAS := ScionNet.read_AS_two_groups g1 g2 rest hg1ne hg1d' hg1len hg2ne hg2d' hg2len
  have hnum : ScionNet.read_number 10 (some 6) true 65535
      (isdDs ++ ('-' :: (g1 ++ (':' :: (g2 ++ (',' :: rest)))))) =
      (some (ScionNet.valChars 10 isdDs), '-' :: (g1 ++ (':' :: (g2 ++ (',' :: rest))))) :=
    ScionNet.read_number_on 10 (some 6) true 65535 isdDs _ (by norm_num) hisdne hisdd'
      (by intro c hc; simp at hc; subst hc; decide) hisdval
      (by intro m hm; cases hm; exact hisdlen) (Or.inl rfl)
  have hscion : ScionNet.read_scion_addr
      (isdDs ++ ('-' :: (g1 ++ (':' :: (g2 ++ (',' :: rest)))))) =
      (none, isdDs ++ ('-' :: (g1 ++ (':' :: (g2 ++ (',' :: rest)))))) :=
    ScionNet.read_scion_addr_fail_after_isd isdDs _ _ hnum hAS
  refine ⟨ScionNet.parse_with_none _ _ _ hscion, ?_⟩
  apply ScionNet.parse_with_none _ _ (isdDs ++ ('-' :: (g1 ++ (':' :: (g2 ++ (',' :: rest))))))
  apply ScionNet.ra_none
  exact ScionNet.pseq_none _ _ _ _ hscion

/-- Witness for C8 at "1-1:2,127.0.0.1". -/
theorem c8_two_group_as_rejected_witness :
    ScionNet.scionAddrParse
      ("1".toList ++ ('-' :: ("1".toList ++ (':' :: ("2".toList ++ (',' :: "127.0.0.1".toList)))))) = none ∧
    ScionNet.socketScionParse
      ("1".toList ++ ('-' :: ("1".toList ++ (':' :: ("2".toList ++ (',' :: "127.0.0.1".toList)))))) = none :=
  c8_two_group_as_rejected "1".toList "1".toList "2".toList "127.0.0.1".toList
    (by decide) (by decide) (by decide) (by decide) (by decide) (by decide) (by decide)
    (by decide) (by decide) (by decide)

/-- Counterexample for Claim C4: the SCION socket display does not bracket
an IPv6 host.  For ISD 1, AS 5, host ::1, port 80 the code prints
"1-5,::1:80", not the claimed bracketed shape "1-5,[::1]:80". -/
theorem c4_v6_host_unbracketed :
    ScionNet.socketScionDisplay
        ⟨⟨ScionNet.make_ia 1 5, ScionNet.IpAddr.V6 ⟨[0, 0, 0, 0, 0, 0, 0, 1]⟩⟩, 80⟩ =
      "1-5,::1:80".toList ∧
    ScionNet.socketScionDisplay
        ⟨⟨ScionNet.make_ia 1 5, ScionNet.IpAddr.V6 ⟨[0, 0, 0, 0, 0, 0, 0, 1]⟩⟩, 80⟩ ≠
      ScionNet.specScionSockBracketed
        ⟨⟨ScionNet.make_ia 1 5, ScionNet.IpAddr.V6 ⟨[0, 0, 0, 0, 0, 0, 0, 1]⟩⟩, 80⟩ := by
  refine ⟨by decide, by decide⟩

/-- Claim C4 (amended): the canonical textual output of a SCION socket
address has the shape isd "-" as-canonical "," host ":" port, where the host
is printed unbracketed for IPv4 and — contrary to the claim — also
unbracketed for IPv6. -/
theorem c4_scion_socket_display_shape (isd as_ : Nat) (host : ScionNet.IpAddr) (port : Nat)
    (_hisd : isd ≤ 65535) (has : as_ < 2 ^ 48) :
    ScionNet.socketScionDisplay ⟨⟨ScionNet.make_ia isd as_, host⟩, port⟩ =
      ScionNet.decChars isd ++ ('-' :: (ScionNet.format_AS as_ ++
        (',' :: (ScionNet.ipDisplay host ++ (':' :: ScionNet.decChars port))))) := by
  simp [ScionNet.socketScionDisplay, ScionNet.scionAddrDisplay,
    ScionNet.ia_unpack_isd isd as_ has, ScionNet.ia_unpack_as isd as_ has,
    List.append_assoc]

/-- Witness for C4 (amended) at ISD 19, AS 281105609592935, host 127.0.0.1,
port 53. -/
theorem c4_scion_socket_display_shape_witness :
    ScionNet.socketScionDisplay
        ⟨⟨ScionNet.make_ia 19 281105609592935, ScionNet.IpAddr.V4 ⟨127, 0, 0, 1⟩⟩, 53⟩ =
      ScionNet.decChars 19 ++ ('-' :: (ScionNet.format_AS 281105609592935 ++
        (',' :: (ScionNet.ipDisplay (ScionNet.IpAddr.V4 ⟨127, 0, 0, 1⟩) ++
          (':' :: ScionNet.decChars 53))))) :=
  c4_scion_socket_display_shape 19 281105609592935 (ScionNet.IpAddr.V4 ⟨127, 0, 0, 1⟩) 53
    (by norm_num) (by norm_num)

/-- Counterexample for Claim C3: the SCION socket family does not round-trip.
"1-a,0.0.0.1:5" parses (AS = 0xa = 10); its display renders the AS in
decimal ("10"), and re-parsing reads that as hex 0x10 = 16, yielding a
different value. -/
theorem c3_scion_roundtrip_cex :
    ScionNet.socketParse "1-a,0.0.0.1:5".toList =
      some (ScionNet.SocketAddr.SCION
        ⟨⟨ScionNet.make_ia 1 10, ScionNet.IpAddr.V4 ⟨0, 0, 0, 1⟩⟩, 5⟩) ∧
    ScionNet.socketDisplay (ScionNet.SocketAddr.SCION
        ⟨⟨ScionNet.make_ia 1 10, ScionNet.IpAddr.V4 ⟨0, 0, 0, 1⟩⟩, 5⟩) =
      "1-10,0.0.0.1:5".toList ∧
    ScionNet.socketParse "1-10,0.0.0.1:5".toList =
      some (ScionNet.SocketAddr.SCION
        ⟨⟨ScionNet.make_ia 1 16, ScionNet.IpAddr.V4 ⟨0, 0, 0, 1⟩⟩, 5⟩) ∧
    ScionNet.SocketAddr.SCION
        (⟨⟨ScionNet.make_ia 1 16, ScionNet.IpAddr.V4 ⟨0, 0, 0, 1⟩⟩, 5⟩ :
          ScionNet.SocketAddrScion) ≠
      ScionNet.SocketAddr.SCION ⟨⟨ScionNet.make_ia 1 10, ScionNet.IpAddr.V4 ⟨0, 0, 0, 1⟩⟩, 5⟩ := by
  refine ⟨by decide, by decide, by decide, by decide⟩

/-- Counterexample for Claim C6: for the in-range AS value 0xffaa00010000
(above the 32-bit boundary), `format_AS` renders "ffaa:1:0:" — with a
trailing colon — while the claim's per-group zero-suppression rule renders
"ffaa:1:0". -/
theorem c6_trailing_colon_cex :
    ScionNet.format_AS 281105609588736 = "ffaa:1:0:".toList ∧
    ScionNet.specFormatAS 281105609588736 = "ffaa:1:0".toList ∧
    ScionNet.format_AS 281105609588736 ≠ ScionNet.specFormatAS 281105609588736 := by
  refine ⟨by decide, by decide, by decide⟩

/-- Claim C5: for every IPv6 address (not IPv4-mapped), the display replaces
exactly the first-found longest run of two or more consecutive zero segments
with "::" (a later run is chosen only when strictly longer), prints all other
segments as lowercase hex with no leading zeros, colon-separated, and never
compresses a zero run of length exactly one. -/
theorem c5_ipv6_display_zero_compression (segs : List Nat) (hlen : segs.length = 8)
    (_hseg : ∀ x ∈ segs, x < 65536)
    (hnm : ScionNet.isIpv4Mapped segs = false) :
    ScionNet.ipv6Display ⟨segs⟩ =
      if 2 ≤ ScionNet.specMaxZeroRun segs then
        ScionNet.specV6Groups (segs.take (ScionNet.specFirstMaxStart segs)) ++
          (':' :: ':' :: ScionNet.specV6Groups
            (segs.drop (ScionNet.specFirstMaxStart segs + ScionNet.specMaxZeroRun segs)))
      else ScionNet.specV6Groups segs := by
  simp only [ScionNet.ipv6Display, hnm, Bool.false_eq_true, if_false,
    ScionNet.findZeroSpan_spec segs hlen, ScionNet.fmtSubslice_eq_specV6Groups]
  rcases Nat.lt_or_ge 1 (ScionNet.specMaxZeroRun segs) with h | h
  · rw [if_pos h, if_pos (by omega)]
  · rw [if_neg (by omega), if_neg (by omega)]

/-- Witness for C5 at the claim's own instance 1:0:1:1:1:1:1:1 (an isolated
zero segment is not compressed). -/
theorem c5_ipv6_display_zero_compression_witness :
    (ScionNet.ipv6Display ⟨[1, 0, 1, 1, 1, 1, 1, 1]⟩ =
      if 2 ≤ ScionNet.specMaxZeroRun [1, 0, 1, 1, 1, 1, 1, 1] then
        ScionNet.specV6Groups
            (List.take (ScionNet.specFirstMaxStart [1, 0, 1, 1, 1, 1, 1, 1])
              [1, 0, 1, 1, 1, 1, 1, 1]) ++
          (':' :: ':' :: ScionNet.specV6Groups
            (List.drop (ScionNet.specFirstMaxStart [1, 0, 1, 1, 1, 1, 1, 1] +
              ScionNet.specMaxZeroRun [1, 0, 1, 1, 1, 1, 1, 1]) [1, 0, 1, 1, 1, 1, 1, 1]))
      else ScionNet.specV6Groups [1, 0, 1, 1, 1, 1, 1, 1]) ∧
    ScionNet.ipv6Display ⟨[1, 0, 1, 1, 1, 1, 1, 1]⟩ = "1:0:1:1:1:1:1:1".toList :=
  ⟨c5_ipv6_display_zero_compression [1, 0, 1, 1, 1, 1, 1, 1] (by decide)
    (by decide) (by decide), by decide⟩

/-- Claim C6 (amended): the canonical AS display renders a value as plain
decimal when it is at most 2^32 - 1, and otherwise renders the natural
leading-zero-stripped hex string re-chunked into runs of 4 from its first
character with leading zeros suppressed per group — except that an all-zero
4-digit group is emitted as "0" directly followed by a colon (and suppresses
the separator in front of the next group), and a shorter all-zero final
group is omitted entirely; as a result a trailing colon appears whenever the
last printed group is all zero. -/
theorem c6_as_display_dual_mode (n : Nat) (_hn : n < 2 ^ 64) :
    ScionNet.format_AS n =
      if n ≤ 4294967295 then ScionNet.decChars n
      else ScionNet.renderChunks (ScionNet.hexChars n) := by
  by_cases h : n ≤ 4294967295
  · simp [ScionNet.format_AS, h]
  · simp only [ScionNet.format_AS, h, if_false]
    exact ScionNet.as_to_dotted_hex_eq_renderChunks n

/-- Witness for C6 (amended) at 0xffaa00010000 and at the decimal-range
value 281105609592935 is out of decimal range, so also check 7. -/
theorem c6_as_display_dual_mode_witness :
    (ScionNet.format_AS 281105609588736 =
      if 281105609588736 ≤ 4294967295 then ScionNet.decChars 281105609588736
      else ScionNet.renderChunks (ScionNet.hexChars 281105609588736)) ∧
    (ScionNet.format_AS 7 =
      if 7 ≤ 4294967295 then ScionNet.decChars 7
      else ScionNet.renderChunks (ScionNet.hexChars 7)) :=
  ⟨c6_as_display_dual_mode 281105609588736 (by norm_num),
   c6_as_display_dual_mode 7 (by norm_num)⟩

/-- Claim C3 (amended): formatting a successfully parsed socket value and
re-parsing the formatted text yields an equal value for the IPv4-socket and
IPv6-socket families.  The SCION socket family does not have this round-trip
property (see the separate counterexample): an AS number at most u32::MAX is
displayed in decimal but re-parsed as colon-separated hex groups. -/
theorem c3_v4_v6_socket_roundtrip (s : List Char) (v : ScionNet.SocketAddr)
    (hp : ScionNet.socketParse s = some v)
    (hfam : match v with
      | ScionNet.SocketAddr.SCION _ => False
      | _ => True) :
    ScionNet.socketParse (ScionNet.socketDisplay v) = some v := by
  cases v with
  | V4 w =>
    obtain ⟨⟨a, b, c, d⟩, p⟩ := w
    obtain ⟨s₀, h4⟩ := ScionNet.socketParse_v4_branch s _ hp
    obtain ⟨ha, hb, hc, hd, hpt⟩ := ScionNet.read_socket_addr_v4_inv _ _ _ h4
    exact ScionNet.socketV4_roundtrip a b c d p ha hb hc hd hpt
  | V6 w =>
    obtain ⟨⟨segs⟩, p, fi, sc⟩ := w
    obtain ⟨s₀, h6⟩ := ScionNet.socketParse_v6_branch s _ hp
    obtain ⟨hlen, hbs, hfi, hpt, hsc⟩ := ScionNet.read_socket_addr_v6_inv _ _ _ h6
    have hfi0 : fi = 0 := hfi
    subst hfi0
    exact ScionNet.socketV6_roundtrip segs p sc hlen hbs hpt hsc
  | SCION w => exact False.elim hfam

/-- Witness for C3 (amended): a concrete IPv4 socket value and a concrete
IPv6 socket value each round-trip through display and re-parse. -/
theorem c3_v4_v6_socket_roundtrip_witness :
    ScionNet.socketParse "1.2.3.4:56".toList =
      some (ScionNet.SocketAddr.V4 ⟨⟨1, 2, 3, 4⟩, 56⟩) ∧
    ScionNet.socketParse
      (ScionNet.socketDisplay (ScionNet.SocketAddr.V4 ⟨⟨1, 2, 3, 4⟩, 56⟩)) =
      some (ScionNet.SocketAddr.V4 ⟨⟨1, 2, 3, 4⟩, 56⟩) ∧
    ScionNet.socketParse "[1:2:3:4:5:6:7:8]:9".toList =
      some (ScionNet.SocketAddr.V6 ⟨⟨[1, 2, 3, 4, 5, 6, 7, 8]⟩, 9, 0, 0⟩) ∧
    ScionNet.socketParse
      (ScionNet.socketDisplay
        (ScionNet.SocketAddr.V6 ⟨⟨[1, 2, 3, 4, 5, 6, 7, 8]⟩, 9, 0, 0⟩)) =
      some (ScionNet.SocketAddr.V6 ⟨⟨[1, 2, 3, 4, 5, 6, 7, 8]⟩, 9, 0, 0⟩) :=
  ⟨by decide,
   c3_v4_v6_socket_roundtrip "1.2.3.4:56".toList _ (by decide) trivial,
   by decide,
   c3_v4_v6_socket_roundtrip "[1:2:3:4:5:6:7:8]:9".toList _ (by decide) trivial⟩
